import Mathlib

/-!
# Verification of the CelestialMCP catalog / pathfinder core

Shallow embedding, in Lean 4, of the catalog-ingestion, object-resolution,
coordinate-math, listing and star-hopping code of the repository
(`src/utils/astronomy.ts`, `src/tools/ListCelestialObjectsTool.ts`, and the
star-hopping tool).  JavaScript numbers are modelled as exact rationals where
the code only does field arithmetic and comparisons, and as real numbers where
the code uses trigonometry; `parseFloat` returning `NaN` is modelled as
`Option.none`; JS `Map`s are modelled as association lists.
-/

namespace Celestial

/-! ## JS primitives -/

/-- Whitespace class used by the JS string model. -/
def isWsp (c : Char) : Bool :=
  c == ' ' || c == '\t' || c == '\n' || c == '\r'

/-- Model of JS `String.prototype.trim` (strip whitespace from both ends),
computed on the character list so that it evaluates structurally. -/
def jsTrim (s : String) : String :=
  String.mk (((s.data.dropWhile isWsp).reverse.dropWhile isWsp).reverse)

/-- Model of JS `String.prototype.toLowerCase` for the ASCII catalog data. -/
def jsToLower (s : String) : String :=
  String.mk (s.data.map Char.toLower)

/-- Splitting step of `jsSplitColon` over the character list. -/
def splitColonChars : List Char → List (List Char)
  | [] => [[]]
  | c :: rest =>
    match splitColonChars rest with
    | [] => [[c]]
    | h :: t => if c == ':' then [] :: h :: t else (c :: h) :: t

/-- Model of JS `String.prototype.split(':')`. -/
def jsSplitColon (s : String) : List String :=
  (splitColonChars s.data).map String.mk

/-- JS truthiness of a possibly-undefined string (`undefined` and `""` are
falsy, every other string is truthy). -/
def jsTruthy : Option String → Bool
  | some s => !s.data.isEmpty
  | none => false

/-- JS `a || b` on possibly-undefined strings. -/
def jsOr (a b : Option String) : Option String :=
  if jsTruthy a then a else b

/-- JS `a || b || ... || ''`: first truthy string of the list, else `""`. -/
def jsOrDefault (l : List (Option String)) : String :=
  match l.find? (fun o => jsTruthy o) with
  | some (some s) => s
  | _ => ""

/-- `a && a.trim()` style check used by the HYG parser: the field is present,
truthy, and its trimmed form is nonempty. -/
def trimTruthy : Option String → Bool
  | some s => !s.data.isEmpty && !(jsTrim s).data.isEmpty
  | none => false

/-- Numeric value of a digit list, most significant first. -/
def natOfDigits (cs : List Char) : ℕ :=
  cs.foldl (fun n c => 10 * n + (c.toNat - 48)) 0


/-- Model of JS `parseFloat` for the plain decimal numerals that occur in the
catalog files: optional leading whitespace, optional sign, an integer part
and/or a fractional part, trailing characters ignored.  `none` models `NaN`
(no digits could be parsed).  The value `sign * (ip + fp / 10 ^ |fp|)` is
built as a single normalized fraction.  Exponent notation is not modelled
because it does not occur in the catalogs. -/
def jsParseFloat (s : String) : Option ℚ :=
  let cs := s.data.dropWhile (fun c => c == ' ' || c == '\t' || c == '\n' || c == '\r')
  let sgncs : ℤ × List Char :=
    match cs with
    | c :: rest =>
      if c == '-' then (-1, rest)
      else if c == '+' then (1, rest)
      else (1, cs)
    | [] => (1, cs)
  let ip := sgncs.2.takeWhile Char.isDigit
  let rest := sgncs.2.dropWhile Char.isDigit
  let fp : List Char :=
    match rest with
    | c :: r => if c == '.' then r.takeWhile Char.isDigit else []
    | [] => []
  if ip.isEmpty && fp.isEmpty then none
  else
    let den : ℕ := 10 ^ fp.length
    some (mkRat (sgncs.1 * (natOfDigits ip * den + natOfDigits fp)) den)

/-- Model of `Math.round` / the ES `toFixed` integer-selection rule: nearest
integer, ties towards `+∞`; this is exactly Mathlib's `round`. -/
def roundTenthQ (q : ℚ) : ℚ := (round (10 * q) : ℤ) / 10

/-! ## Data model: `EquatorialCoordinates` records -/

/-- The normalized in-memory record stored in `STAR_CATALOG` / `DSO_CATALOG`
(interface `EquatorialCoordinates` of `src/utils/astronomy.ts`), with the
numeric fields as exact rationals. -/
structure EqRecord where
  rightAscension : ℚ
  declination : ℚ
  magnitude : Option ℚ := none
  name : Option String := none
  commonName : Option String := none
  objType : Option String := none
  constellation : Option String := none
deriving DecidableEq, Repr

/-! ## Catalog parser: generic DSO rows (`loadDSOCatalog`, generic branch) -/

/-- One parsed CSV row of a generic (non-OpenNGC) DSO file.  Field names
mirror the column names probed by the source (`name`/`Name`/`id`/`ID`,
`common_name`/`commonName`/`common name`, `type`/`Type`, `ra_hours`/`RA`,
`dec_degrees`/`Dec`, `V-Mag`/`VMAG`/`vmag`, `B-Mag`/`BMAG`/`bmag`,
`magnitude`/`Magnitude`/`MAG`/`mag`); `none` models an absent column. -/
structure DsoRow where
  nm : Option String := none
  nmU : Option String := none
  idL : Option String := none
  idU : Option String := none
  commonA : Option String := none
  commonB : Option String := none
  commonC : Option String := none
  typeL : Option String := none
  typeU : Option String := none
  ra_hours : Option String := none
  ra : Option String := none
  dec_degrees : Option String := none
  dec : Option String := none
  vMagA : Option String := none
  vMagB : Option String := none
  vMagC : Option String := none
  bMagA : Option String := none
  bMagB : Option String := none
  bMagC : Option String := none
  magA : Option String := none
  magB : Option String := none
  magC : Option String := none
  magD : Option String := none
deriving Repr

/-- RA extraction of the generic DSO branch: `ra_hours` is used verbatim when
the column is present; otherwise `RA` (decimal degrees) is divided by 15.
`none` models `undefined`-or-`NaN`, which the caller skips. -/
def dsoRaHours (r : DsoRow) : Option ℚ :=
  match r.ra_hours with
  | some s => jsParseFloat s
  | none =>
    match r.ra with
    | some s => (jsParseFloat s).map (· / 15)
    | none => none

/-- Dec extraction of the generic DSO branch: `dec_degrees`, else `Dec`. -/
def dsoDecDegrees (r : DsoRow) : Option ℚ :=
  match r.dec_degrees with
  | some s => jsParseFloat s
  | none =>
    match r.dec with
    | some s => jsParseFloat s
    | none => none

/-- `vMagStr !== undefined && String(vMagStr).trim() !== ''`. -/
def magFieldUsable : Option String → Bool
  | some s => !(jsTrim s).data.isEmpty
  | none => false

/-- Magnitude precedence of the generic DSO branch: V-magnitude chain, else
B-magnitude chain, else generic magnitude chain; a chosen-but-unparsable
column leaves the magnitude undefined (no further fallback), exactly as in
the source. -/
def dsoMagnitude (r : DsoRow) : Option ℚ :=
  let v := jsOr (jsOr r.vMagA r.vMagB) r.vMagC
  let b := jsOr (jsOr r.bMagA r.bMagB) r.bMagC
  let m := jsOr (jsOr (jsOr r.magA r.magB) r.magC) r.magD
  if magFieldUsable v then jsParseFloat (v.getD "")
  else if magFieldUsable b then jsParseFloat (b.getD "")
  else if magFieldUsable m then jsParseFloat (m.getD "")
  else none

/-- Row-level body of the generic-DSO ingestion loop
(`src/utils/astronomy.ts:219-284`): returns the `(lowercased key, record)`
pair stored by `DSO_CATALOG.set`, or `none` when the row is skipped.  The
source skips a row iff the name chain is falsy or either coordinate is
`undefined`/`NaN`; NO range check is performed on either coordinate. -/
def processDsoRowGeneric (r : DsoRow) : Option (String × EqRecord) :=
  let name := jsOrDefault [r.nm, r.nmU, r.idL, r.idU]
  let commonName := jsOrDefault [r.commonA, r.commonB, r.commonC]
  let ty := jsOrDefault [r.typeL, r.typeU]
  match dsoRaHours r, dsoDecDegrees r with
  | some raH, some decD =>
    if name.data.isEmpty then none
    else
      some (jsToLower name,
        { rightAscension := raH
          declination := decD
          magnitude := dsoMagnitude r
          name := some name
          commonName := some commonName
          objType := some ty })
  | _, _ => none

/-- Sexagesimal RA parsing of the OpenNGC DSO branch
(`src/utils/astronomy.ts:111-123`): split on `:`, require exactly three
parts, parse each with `parseFloat`, combine `h + m/60 + s/3600`. -/
def parseRAsex (s : String) : Option ℚ :=
  match jsSplitColon s with
  | [hs, ms, ss] =>
    match jsParseFloat hs, jsParseFloat ms, jsParseFloat ss with
    | some h, some m, some sec => some (h + m / 60 + sec / 3600)
    | _, _, _ => none
  | _ => none

/-! ## Catalog parser: HYG star rows (`loadStarCatalog`, HYG branch) -/

/-- One parsed CSV row of the HYG star database; `none` models an absent
column. -/
structure HygRow where
  proper : Option String := none
  bf : Option String := none
  hip : Option String := none
  hd : Option String := none
  mag : Option String := none
  ra : Option String := none
  dec : Option String := none
  con : Option String := none
deriving Repr

/-- `record.mag !== undefined && parseFloat(record.mag) < 6.0` (note that a
`NaN` magnitude compares false). -/
def hygMagLtSix (r : HygRow) : Bool :=
  match r.mag with
  | some s =>
    match jsParseFloat s with
    | some m => decide (m < 6)
    | none => false
  | none => false

/-- The `on_record` pre-filter of the HYG parser
(`src/utils/astronomy.ts:315-327`): keep a record iff it has a truthy
`proper` or `bf` column, or parses to magnitude `< 6.0`.  The HIP and HD
columns are NOT consulted here. -/
def hygPreFilter (r : HygRow) : Bool :=
  jsTruthy r.proper || jsTruthy r.bf || hygMagLtSix r

/-- Decimal rendering of `q` with one fractional digit: model of
`Number.prototype.toFixed(1)` (ES tie rule: the larger candidate integer is
chosen, which is Mathlib's `round`). -/
def formatFixed1 (q : ℚ) : String :=
  let n := round (10 * q)
  if n < 0 then
    "-" ++ toString ((-n).toNat / 10) ++ "." ++ toString ((-n).toNat % 10)
  else
    toString (n.toNat / 10) ++ "." ++ toString (n.toNat % 10)

/-- Canonical-name resolution for a HYG row
(`src/utils/astronomy.ts:335-352`): proper name, then Bayer/Flamsteed, then
`"HIP " + hip`, then `"HD " + hd`, then a synthesized
`"Star mag {mag:.1f}[ in {constellation}]"` for bright unnamed stars, else
the empty string (which makes the caller skip the row). -/
def hygName (r : HygRow) : String :=
  if trimTruthy r.proper then jsTrim (r.proper.getD "")
  else if trimTruthy r.bf then jsTrim (r.bf.getD "")
  else if trimTruthy r.hip then "HIP " ++ jsTrim (r.hip.getD "")
  else if trimTruthy r.hd then "HD " ++ jsTrim (r.hd.getD "")
  else
    match r.mag with
    | some s =>
      match jsParseFloat s with
      | some m =>
        if m < 6 then
          "Star mag " ++ formatFixed1 m ++
            (if trimTruthy r.con then " in " ++ jsTrim (r.con.getD "") else "")
        else ""
      | none => ""
    | none => ""

/-- RA extraction for a HYG row: the `ra` column must be present and nonempty,
and parse to a number (`none` models `undefined` or `NaN`, both skipped). -/
def hygRa (r : HygRow) : Option ℚ :=
  match r.ra with
  | some s => if s.data.isEmpty then none else jsParseFloat s
  | none => none

/-- Dec extraction for a HYG row, same shape as `hygRa`. -/
def hygDec (r : HygRow) : Option ℚ :=
  match r.dec with
  | some s => if s.data.isEmpty then none else jsParseFloat s
  | none => none

/-- Magnitude extraction for a HYG row: present, nonempty after trimming, and
parsable, else undefined. -/
def hygMagnitude (r : HygRow) : Option ℚ :=
  match r.mag with
  | some s => if (jsTrim s).data.isEmpty then none else jsParseFloat s
  | none => none

/-- Row-level body of the HYG ingestion loop
(`src/utils/astronomy.ts:334-391`): returns the `(lowercased key, record)`
pair stored by `STAR_CATALOG.set`, or `none` when the row is skipped (empty
resolved name, or missing/`NaN` coordinate).  No range check is performed on
either coordinate. -/
def processHygRow (r : HygRow) : Option (String × EqRecord) :=
  let name := hygName r
  if name.data.isEmpty then none
  else
    match hygRa r, hygDec r with
    | some raH, some decD =>
      some (jsToLower name,
        { rightAscension := raH
          declination := decD
          magnitude := hygMagnitude r
          name := some name
          objType := some "Star"
          constellation :=
            if trimTruthy r.con then some (jsTrim (r.con.getD "")) else none })
    | _, _ => none

/-- The whole HYG ingestion pipeline at the row level: the `on_record`
pre-filter applied by the CSV parser, then the per-record loop; the resulting
list is the sequence of `STAR_CATALOG.set` calls. -/
def loadHygRows (rows : List HygRow) : List (String × EqRecord) :=
  (rows.filter hygPreFilter).filterMap processHygRow

/-! ## Object resolver (`getEquatorialCoordinates`) -/

/-- The 11 own keys of the `SOLAR_SYSTEM_OBJECTS` object literal (all bound
to `true`). -/
def SOLAR_SYSTEM_OBJECTS : List String :=
  ["sun", "moon", "mercury", "venus", "earth", "mars", "jupiter", "saturn",
   "uranus", "neptune", "pluto"]

/-- `SOLAR_SYSTEM_OBJECTS` is a plain object literal, so the property read
`SOLAR_SYSTEM_OBJECTS[normalizedName]` walks the prototype chain and also
finds the properties of `Object.prototype`.  These are their names; every one
of their values is truthy (each is a built-in function, except `__proto__`
whose getter yields `Object.prototype` itself, also truthy). -/
def OBJECT_PROTOTYPE_KEYS : List String :=
  ["constructor", "hasOwnProperty", "isPrototypeOf", "propertyIsEnumerable",
   "toLocaleString", "toString", "valueOf", "__defineGetter__",
   "__defineSetter__", "__lookupGetter__", "__lookupSetter__", "__proto__"]

/-- Truthiness of the lookup `SOLAR_SYSTEM_OBJECTS[normalizedName]`: truthy
iff the key is one of the 11 own keys (value `true`) or an inherited
`Object.prototype` property (all truthy).  Any other key reads `undefined`,
which is falsy. -/
def solarLookupTruthy (normalizedName : String) : Bool :=
  SOLAR_SYSTEM_OBJECTS.contains normalizedName ||
    OBJECT_PROTOTYPE_KEYS.contains normalizedName

/-- Outcome of the resolver.  `solar n` models the delegation
`getSolarSystemCoordinates(normalizedName, date)` to the external ephemeris
library; `notFound orig` models `throw new Error(...)` whose message embeds
the caller's `objectName` argument verbatim (casing preserved). -/
inductive ResolveResult where
  | found (r : EqRecord)
  | solar (normalizedName : String)
  | notFound (originalName : String)
deriving DecidableEq, Repr

/-- `getEquatorialCoordinates` (`src/utils/astronomy.ts:605-634`): normalize
to lowercase, then try in order: the truthy plain-object lookup in
`SOLAR_SYSTEM_OBJECTS` (delegated to `getSolarSystemCoordinates` with the
lowercased name — note the lookup is also truthy on inherited
`Object.prototype` keys), common-name alias → canonical DSO key → DSO
catalog, star catalog direct, DSO catalog direct; otherwise the
unknown-object error carrying the original input.  The JS `Map`s are
modelled as association lists with unique keys (`List.lookup`). -/
def getEquatorialCoordinates (commonNames : List (String × String))
    (starCat dsoCat : List (String × EqRecord)) (objectName : String) :
    ResolveResult :=
  let normalizedName := jsToLower objectName
  if solarLookupTruthy normalizedName then
    .solar normalizedName
  else
    match
      (match commonNames.lookup normalizedName with
       | some catalogName => dsoCat.lookup catalogName
       | none => none) with
    | some dsoObject => .found dsoObject
    | none =>
      match starCat.lookup normalizedName with
      | some starObject => .found starObject
      | none =>
        match dsoCat.lookup normalizedName with
        | some dsoObject => .found dsoObject
        | none => .notFound objectName

/-! ## Coordinate math (`calculateAngularSeparation`, `calculateBearing`)

These functions are pure trigonometry; JS doubles are modelled as exact real
numbers, so the definitions are noncomputable. -/

open Real in
/-- A bare equatorial position, as consumed by the two coordinate-math
functions (`{ rightAscension; declination }`). -/
structure RaDec where
  rightAscension : ℝ
  declination : ℝ

open Real in
/-- `calculateAngularSeparation` (`src/utils/astronomy.ts:1039-1057`):
spherical law of cosines on RA (hours, converted to degrees by `*15`) and
declination, with the cosine argument clamped to `[-1, 1]` before `acos`,
result converted to degrees. -/
noncomputable def calculateAngularSeparation (c1 c2 : RaDec) : ℝ :=
  let ra1Rad := c1.rightAscension * 15 * π / 180
  let ra2Rad := c2.rightAscension * 15 * π / 180
  let dec1Rad := c1.declination * π / 180
  let dec2Rad := c2.declination * π / 180
  let cosDeltaSigma :=
    Real.sin dec1Rad * Real.sin dec2Rad +
      Real.cos dec1Rad * Real.cos dec2Rad * Real.cos (ra1Rad - ra2Rad)
  let clampedCosDeltaSigma := max (-1) (min 1 cosDeltaSigma)
  Real.arccos clampedCosDeltaSigma * (180 / π)

open Real in
/-- Model of JS `Math.atan2 y x` on the reals (the signed-zero distinction of
doubles is immaterial here). -/
noncomputable def atan2 (y x : ℝ) : ℝ :=
  if 0 < x then Real.arctan (y / x)
  else if x < 0 then
    (if 0 ≤ y then Real.arctan (y / x) + π else Real.arctan (y / x) - π)
  else
    (if 0 < y then π / 2 else if y < 0 then -(π / 2) else 0)

/-- The 16 compass points of `calculateBearing`. -/
def directions : List String :=
  ["N", "NNE", "NE", "ENE", "E", "ESE", "SE", "SSE",
   "S", "SSW", "SW", "WSW", "W", "WNW", "NW", "NNW"]

open Real in
/-- The bearing angle of `calculateBearing` before any rounding: position
angle via `atan2`, converted to degrees and normalized by adding 360 when
negative. -/
noncomputable def bearingAngleDeg (c1 c2 : RaDec) : ℝ :=
  let ra1Rad := c1.rightAscension * 15 * π / 180
  let ra2Rad := c2.rightAscension * 15 * π / 180
  let dec1Rad := c1.declination * π / 180
  let dec2Rad := c2.declination * π / 180
  let y := Real.sin (ra2Rad - ra1Rad)
  let x := Real.cos dec1Rad * Real.tan dec2Rad -
    Real.sin dec1Rad * Real.cos (ra2Rad - ra1Rad)
  let angleDegrees := atan2 y x * (180 / π)
  if angleDegrees < 0 then angleDegrees + 360 else angleDegrees

/-- `Math.round((angleDegrees / 22.5) + 0.001) % 16`, the compass-bucket
index of `calculateBearing` (`round` ties towards `+∞`, as `Math.round`
does). -/
noncomputable def cardinalIndex (angleDegrees : ℝ) : ℤ :=
  round (angleDegrees / 22.5 + 0.001) % 16

/-- `parseFloat(angleDegrees.toFixed(1))`: round to one decimal digit. -/
noncomputable def roundTenthR (x : ℝ) : ℝ := (round (10 * x) : ℤ) / 10

/-- `calculateBearing` (`src/utils/astronomy.ts:1060-1083`): the returned
`degrees` is the normalized angle rounded to one decimal via `toFixed(1)`,
and `cardinal` is the compass point at `cardinalIndex`. -/
noncomputable def calculateBearing (c1 c2 : RaDec) : ℝ × String :=
  let angleDegrees := bearingAngleDeg c1 c2
  (roundTenthR angleDegrees, directions.getD (cardinalIndex angleDegrees).toNat "")

/-! ## Star-hopping pathfinder (`StarHoppingTool.execute`)

The search itself only compares the numbers produced by
`calculateAngularSeparation`, `convertToAltAz(...).altitude` and
`calculateBearing`; those three are gathered into a `HopEnv` of rational-
valued geometry functions so that the search stays executable.
`convertToAltAz` is external (astronomy-engine `Horizon` at the configured
observer and the request time); the other two are the functions embedded
above.  Every property proved about the search is universally quantified
over the `HopEnv`, so it holds in particular for the source's
instantiation. -/

/-- The `(ra, dec)` position of a catalog entry, as fed to the geometry
functions. -/
def entryPos (e : String × EqRecord) : ℚ × ℚ :=
  (e.2.rightAscension, e.2.declination)

/-- The geometry oracle of one pathfinder invocation: `sep` stands for
`calculateAngularSeparation`, `alt` for `convertToAltAz(..).altitude` at the
fixed observer/date, `bearing` for `calculateBearing`, and `solarPos` for
`getSolarSystemCoordinates` of the external ephemeris. -/
structure HopEnv where
  sep : ℚ × ℚ → ℚ × ℚ → ℚ
  alt : ℚ × ℚ → ℚ
  bearing : ℚ × ℚ → ℚ × ℚ → ℚ × String
  solarPos : String → ℚ × ℚ

/-- The tool parameters after zod defaulting
(`fovDegrees` required, `maxHopMagnitude` 8.0, `initialSearchRadiusDegrees`
20.0, `startStarMagnitudeThreshold` 3.5, `maxHops` 20). -/
structure HopParams where
  fovDegrees : ℚ
  maxHopMagnitude : ℚ := 8
  initialSearchRadiusDegrees : ℚ := 20
  startStarMagnitudeThreshold : ℚ := 7 / 2
  maxHops : ℕ := 20
deriving DecidableEq, Repr

/-- The six terminal statuses of the tool. -/
inductive HopStatus where
  | Success
  | TargetNotFound
  | TargetNotVisible
  | NoStartingStarFound
  | TargetInStartFOV
  | PathNotFound
deriving DecidableEq, Repr

/-- One recorded hop (`hopSequence` element): number, endpoint names/id,
bearing of the move, and the hop distance rounded to 0.1°. -/
structure Hop where
  hopNumber : ℕ
  fromName : Option String
  toId : String
  toName : Option String
  direction : ℚ × String
  angularDistanceDegrees : ℚ
deriving DecidableEq, Repr

/-- The observable outcome of one invocation: status, hop sequence, the
selected start star (when one was selected) and the final-step bearing
towards the target (when reported). -/
structure HopResult where
  status : HopStatus
  hopSequence : List Hop
  startStar : Option (String × EqRecord)
  finalBearing : Option (ℚ × String)
deriving DecidableEq, Repr

/-- Start-star candidate test (`part_000:279-292`): the loop `continue`s on
undefined magnitude or magnitude above the threshold, on separation above
the initial search radius, and on altitude `≤ 0`; so a star qualifies iff
it has a defined magnitude `≤` threshold, separation to the target `≤` the
radius, and positive current altitude. -/
def startQualifies (env : HopEnv) (p : HopParams) (t : ℚ × ℚ)
    (e : String × EqRecord) : Bool :=
  (match e.2.magnitude with
   | some m => decide (m ≤ p.startStarMagnitudeThreshold)
   | none => false) &&
  decide (env.sep (entryPos e) t ≤ p.initialSearchRadiusDegrees) &&
  decide (0 < env.alt (entryPos e))

/-- The sort key `(a.magnitude ?? Infinity)` of the start-star sort. -/
def magKey (e : String × EqRecord) : WithTop ℚ :=
  match e.2.magnitude with
  | some m => (m : WithTop ℚ)
  | none => ⊤

/-- Insertion step of a stable sort by `magKey`: the inserted element goes
in front of the first element with a key `≥` its own. -/
def insertByMag (e : String × EqRecord) :
    List (String × EqRecord) → List (String × EqRecord)
  | [] => [e]
  | a :: rest =>
    if magKey e ≤ magKey a then e :: a :: rest else a :: insertByMag e rest

/-- Stable sort by magnitude, modelling
`potentialStartStars.sort((a, b) => (a.magnitude ?? Infinity) - (b.magnitude ?? Infinity))`
(ES2019 `Array.prototype.sort` is required to be stable, and all stable
sorts under a total preorder agree, so insertion sort is the unique
observable behaviour). -/
def stableSortByMag (l : List (String × EqRecord)) : List (String × EqRecord) :=
  l.foldr insertByMag []

/-- Start-star selection (`part_000:274-308`): filter the catalog in
iteration order, sort stably by magnitude, take the first element. -/
def selectStartStar (env : HopEnv) (p : HopParams) (t : ℚ × ℚ)
    (cat : List (String × EqRecord)) : Option (String × EqRecord) :=
  (stableSortByMag (cat.filter (startQualifies env p t))).head?

/-- The hop-candidate conditions of the greedy loop (`part_000:352-374`),
as a predicate: not visited, not the target id, defined magnitude `≤`
`maxHopMagnitude`, within `fovDegrees` of the current hop star, strictly
closer to the target than the current star, and above the horizon. -/
def hopQualifies (env : HopEnv) (p : HopParams) (t : ℚ × ℚ) (tId : String)
    (visited : List String) (cur : String × EqRecord) (curDist : ℚ)
    (c : String × EqRecord) : Prop :=
  visited.contains c.1 = false ∧ c.1 ≠ tId ∧
  (∃ m, c.2.magnitude = some m ∧ m ≤ p.maxHopMagnitude) ∧
  env.sep (entryPos cur) (entryPos c) ≤ p.fovDegrees ∧
  env.sep (entryPos c) t < curDist ∧
  0 < env.alt (entryPos c)

/-- The body of the inner scan of one hop iteration (`part_000:352-380`):
given the running `(bestNextHop, smallestDistToTargetForNextHop)` state and
one catalog candidate, apply the source's `continue` chain and accept the
candidate when its distance to the target beats the best so far
(strictly). -/
def hopScanStep (env : HopEnv) (p : HopParams) (t : ℚ × ℚ) (tId : String)
    (visited : List String) (cur : String × EqRecord) (curDist : ℚ)
    (acc : Option (String × EqRecord) × ℚ) (c : String × EqRecord) :
    Option (String × EqRecord) × ℚ :=
  if visited.contains c.1 || c.1 == tId then acc
  else
    match c.2.magnitude with
    | none => acc
    | some m =>
      if p.maxHopMagnitude < m then acc
      else if p.fovDegrees < env.sep (entryPos cur) (entryPos c) then acc
      else if curDist ≤ env.sep (entryPos c) t then acc
      else if env.alt (entryPos c) ≤ 0 then acc
      else if env.sep (entryPos c) t < acc.2 then (some c, env.sep (entryPos c) t)
      else acc

/-- The inner scan of one hop iteration (`part_000:349-380`): fold
`hopScanStep` over the catalog, initialized to
`(null, currentDistanceToTarget)`. -/
def findBestNextHop (env : HopEnv) (p : HopParams) (t : ℚ × ℚ) (tId : String)
    (cat : List (String × EqRecord)) (visited : List String)
    (cur : String × EqRecord) (curDist : ℚ) :
    Option (String × EqRecord) × ℚ :=
  cat.foldl (hopScanStep env p t tId visited cur curDist) (none, curDist)

/-- The greedy hop loop (`part_000:348-431`), with the remaining iteration
budget as structural fuel (`fuel = maxHops - hopNum + 1`).  Returns the
status, the accumulated hop sequence, and the final hop star (from which
the final bearing to the target is reported). -/
def hopLoop (env : HopEnv) (p : HopParams) (t : ℚ × ℚ) (tId : String)
    (cat : List (String × EqRecord)) :
    ℕ → ℕ → String × EqRecord → ℚ → List String → List Hop →
    HopStatus × List Hop × (String × EqRecord)
  | 0, _, cur, _, _, seq => (.PathNotFound, seq, cur)
  | fuel + 1, hopNum, cur, curDist, visited, seq =>
    match findBestNextHop env p t tId cat visited cur curDist with
    | (some best, newDist) =>
      let hop : Hop :=
        { hopNumber := hopNum
          fromName := cur.2.name
          toId := best.1
          toName := best.2.name
          direction := env.bearing (entryPos cur) (entryPos best)
          angularDistanceDegrees :=
            roundTenthQ (env.sep (entryPos cur) (entryPos best)) }
      let seq' := seq ++ [hop]
      if newDist ≤ p.fovDegrees then (.Success, seq', best)
      else hopLoop env p t tId cat fuel (hopNum + 1) best newDist
        (visited ++ [best.1]) seq'
    | (none, _) => (.PathNotFound, seq, cur)

/-- The pathfinding phase of `StarHoppingTool.execute` after target
resolution (`part_000:254-444`): visibility check, start-star selection,
in-FOV shortcut, then the greedy loop with `visited = {startStar.id}` and
hop numbers from 1. -/
def findHoppingPath (env : HopEnv) (p : HopParams)
    (cat : List (String × EqRecord)) (t : ℚ × ℚ) (tId : String) : HopResult :=
  if env.alt t ≤ 0 then ⟨.TargetNotVisible, [], none, none⟩
  else
    match selectStartStar env p t cat with
    | none => ⟨.NoStartingStarFound, [], none, none⟩
    | some startStar =>
      let initialSeparationToTarget := env.sep (entryPos startStar) t
      if initialSeparationToTarget ≤ p.fovDegrees then
        ⟨.TargetInStartFOV, [], some startStar,
          some (env.bearing (entryPos startStar) t)⟩
      else
        let r := hopLoop env p t tId cat p.maxHops 1 startStar
          initialSeparationToTarget [startStar.1] []
        ⟨r.1, r.2.1, some startStar, some (env.bearing (entryPos r.2.2) t)⟩

/-- The whole of `StarHoppingTool.execute`: resolve the target through
`getEquatorialCoordinates` (a failure is `TargetNotFound`), then run the
pathfinding phase on the target's position with
`targetData.id = targetObjectName.toLowerCase()`. -/
def executeStarHopping (env : HopEnv) (p : HopParams)
    (commonNames : List (String × String))
    (starCat dsoCat : List (String × EqRecord)) (targetName : String) :
    HopResult :=
  match getEquatorialCoordinates commonNames starCat dsoCat targetName with
  | .notFound _ => ⟨.TargetNotFound, [], none, none⟩
  | .solar n => findHoppingPath env p starCat (env.solarPos n) (jsToLower targetName)
  | .found rec =>
    findHoppingPath env p starCat (rec.rightAscension, rec.declination)
      (jsToLower targetName)

/-! ## Listing (`ListCelestialObjectsTool`: `buildStars`, `buildDsoByPrefix`) -/

/-- The magnitude and constellation filters shared by `buildStars`,
`buildDsoByPrefix` and `buildOtherDso`: with a `minMagnitude` the object must
have a numeric magnitude `≤ minMagnitude`; with a constellation filter the
object's constellation must be truthy and match case-insensitively.  The
`constel` argument is the caller-normalized (trimmed, lowercased, truthy)
filter value. -/
def recordPasses (minMag : Option ℚ) (constel : Option String)
    (c : EqRecord) : Bool :=
  (match minMag with
   | none => true
   | some mm =>
     match c.magnitude with
     | some m => decide (m ≤ mm)
     | none => false) &&
  (match constel with
   | none => true
   | some cs =>
     match c.constellation with
     | some k => !k.data.isEmpty && (jsToLower k == cs)
     | none => false)

/-- `charAt(0).toUpperCase() + slice(1)` (ASCII data). -/
def capitalize (s : String) : String :=
  match s.data with
  | [] => ""
  | ch :: rest => String.mk (ch.toUpper :: rest)

/-- The accumulation loop of `buildStars`
(`ListCelestialObjectsTool.ts:56-72`): iterate the star catalog, apply the
filters, derive the primary key from the record's (truthy) `name`
lowercased, de-duplicate through the `seen` set, and push the capitalized
primary name. -/
def buildStarsLoop (minMag : Option ℚ) (constel : Option String) :
    List (String × EqRecord) → List String → List String
  | [], _ => []
  | (_, c) :: rest, seen =>
    if recordPasses minMag constel c then
      if jsTruthy c.name then
        let primary := jsToLower (c.name.getD "")
        if seen.contains primary then buildStarsLoop minMag constel rest seen
        else capitalize primary :: buildStarsLoop minMag constel rest (primary :: seen)
      else buildStarsLoop minMag constel rest seen
    else buildStarsLoop minMag constel rest seen

/-- Insertion step of the default JS string sort (`names.sort()`). -/
def insertStr (s : String) : List String → List String
  | [] => [s]
  | a :: rest => if s ≤ a then s :: a :: rest else a :: insertStr s rest

/-- `names.sort()`: lexicographic string sort. -/
def sortStrings (l : List String) : List String :=
  l.foldr insertStr []

/-- `paginate` (`ListCelestialObjectsTool.ts:48-52`): identity without a
limit, else `slice(offset, offset + limit)`. -/
def paginate (limit : Option ℕ) (offset : ℕ) (l : List String) : List String :=
  match limit with
  | none => l
  | some k => (l.drop offset).take k

/-- The `objects` list returned by `buildStars`: filtered names, sorted,
paginated (the `total`/`pageInfo` bookkeeping of the source carries no
further information about membership). -/
def buildStars (cat : List (String × EqRecord)) (minMag : Option ℚ)
    (constel : Option String) (limit : Option ℕ) (offset : ℕ) : List String :=
  paginate limit offset (sortStrings (buildStarsLoop minMag constel cat []))

/-- The three DSO key classes of `buildDsoByPrefix` (parameter
`'m' | 'ic' | 'ngc'`; the identifier avoids the word used by the source). -/
inductive DsoKind where
  | m
  | ic
  | ngc
deriving DecidableEq, Repr

/-- Case-insensitive test for `letters` followed by one or more digits and
nothing else, modelling the anchored regexes `/^m\d+$/i`, `/^ic\d+$/i`,
`/^ngc\d+$/i`. -/
def isCatKey (letters : List Char) (s : String) : Bool :=
  let t := (jsToLower s).data
  decide (t.take letters.length = letters) &&
  !(t.drop letters.length).isEmpty &&
  (t.drop letters.length).all Char.isDigit

/-- Key test for one DSO kind. -/
def keyMatches : DsoKind → String → Bool
  | .m, s => isCatKey ['m'] s
  | .ic, s => isCatKey ['i', 'c'] s
  | .ngc, s => isCatKey ['n', 'g', 'c'] s

/-- The accumulation loop of `buildDsoByPrefix`
(`ListCelestialObjectsTool.ts:77-96`): iterate the DSO catalog keys, keep
keys matching the kind's regex whose record passes the filters, and push the
capitalized key.  (The source looks the record up by key; since the map's
keys are unique the entry's own record is that lookup.) -/
def buildDsoLoop (kind : DsoKind) (minMag : Option ℚ)
    (constel : Option String) : List (String × EqRecord) → List String
  | [] => []
  | (key, obj) :: rest =>
    if keyMatches kind key && recordPasses minMag constel obj then
      capitalize key :: buildDsoLoop kind minMag constel rest
    else buildDsoLoop kind minMag constel rest

/-- `parseInt` of the digits after the kind's letters in a capitalized key
(all keys reaching the sort match the kind's regex, so the digits are
nonempty). -/
def suffixNum (kind : DsoKind) (s : String) : ℕ :=
  let n := match kind with
    | .m => 1
    | .ic => 2
    | .ngc => 3
  natOfDigits ((s.data.drop n).takeWhile Char.isDigit)

/-- Insertion step of the numeric-suffix sort of `buildDsoByPrefix`. -/
def insertBySuffix (kind : DsoKind) (s : String) : List String → List String
  | [] => [s]
  | a :: rest =>
    if suffixNum kind s ≤ suffixNum kind a then s :: a :: rest
    else a :: insertBySuffix kind s rest

/-- The numeric-suffix sort of `buildDsoByPrefix`. -/
def sortBySuffix (kind : DsoKind) (l : List String) : List String :=
  l.foldr (insertBySuffix kind) []

/-- The `objects` list returned by `buildDsoByPrefix` (named `buildDsoByKind`
here): filtered keys, sorted by numeric suffix, paginated. -/
def buildDsoByKind (dsoCat : List (String × EqRecord)) (kind : DsoKind)
    (minMag : Option ℚ) (constel : Option String) (limit : Option ℕ)
    (offset : ℕ) : List String :=
  paginate limit offset (sortBySuffix kind (buildDsoLoop kind minMag constel dsoCat))

/-! ## Concrete sample inputs used to evaluate the definitions -/

/-- A generic DSO row with a numeric but out-of-range declination (`95°`). -/
def badDsoRow : DsoRow :=
  { nm := some "WeirdObj", ra_hours := some "5", dec_degrees := some "95" }

/-- A well-formed generic DSO row. -/
def sampleDsoRow : DsoRow :=
  { nm := some "Obj1", ra_hours := some "6.5", dec_degrees := some "-30.25" }

/-- The record `sampleDsoRow` is stored as. -/
def sampleStoredRec : EqRecord :=
  { rightAscension := 13 / 2
    declination := -121 / 4
    magnitude := none
    name := some "Obj1"
    commonName := some ""
    objType := some "" }

/-- A HYG row that carries only a Hipparcos number and a dim magnitude. -/
def hipOnlyDimRow : HygRow :=
  { hip := some "123", mag := some "7.0" }

/-- A HYG row with a proper name and full data. -/
def vegaRow : HygRow :=
  { proper := some "Vega", mag := some "0.0", ra := some "18.5"
    dec := some "38.75", con := some "Lyr" }

/-- The record `vegaRow` is stored as. -/
def vegaStored : EqRecord :=
  { rightAscension := 37 / 2
    declination := 155 / 4
    magnitude := some 0
    name := some "Vega"
    objType := some "Star"
    constellation := some "Lyr" }

/-- First argument of the bearing evaluation: a point `1e-4` hours east of
the second in right ascension. -/
noncomputable def bearingCex1 : RaDec := ⟨1 / 10000, 0⟩

/-- Second argument of the bearing evaluation. -/
noncomputable def bearingCex2 : RaDec := ⟨0, 45⟩

/-- A concrete geometry oracle: separation 0 between equal positions and 5
otherwise, altitude 1 everywhere, constant bearing. -/
def envW : HopEnv :=
  { sep := fun a b => if a = b then 0 else 5
    alt := fun _ => 1
    bearing := fun _ _ => (0, "N")
    solarPos := fun _ => (0, 0) }

/-- A one-star catalog entry. -/
def starVega : String × EqRecord :=
  ("vega", { rightAscension := 1, declination := 1, magnitude := some 1,
             name := some "Vega", objType := some "Star" })

/-- A star with no recorded magnitude, never a start-star candidate. -/
def starNoMag : String × EqRecord :=
  ("anon", { rightAscension := 2, declination := 2, magnitude := none,
             name := some "Anon" })

/-- One-star catalog. -/
def catW : List (String × EqRecord) := [starVega]

/-- Catalog whose only star has no magnitude. -/
def catNoMag : List (String × EqRecord) := [starNoMag]

/-- A stored DSO record for `M13` at the origin position. -/
def recM13 : EqRecord := { rightAscension := 0, declination := 0, name := some "M13" }

/-- One-DSO catalog. -/
def dsoCatW : List (String × EqRecord) := [("m13", recM13)]

/-- Pathfinder parameters with FOV 6° and the source defaults otherwise. -/
def pW : HopParams := { fovDegrees := 6 }

/-! # Theorems -/

/-- C9: for every sexagesimal right-ascension string splitting into three
parseable parts of values `H`, `M`, `S`, the parsed decimal hours equal
`H + M/60 + S/3600` within `1e-6` (the rational model is exact, so the error
is zero). -/
theorem parseRA_sexagesimal (s a b c : String) (h m sec : ℚ)
    (hsplit : jsSplitColon s = [a, b, c])
    (ha : jsParseFloat a = some h) (hb : jsParseFloat b = some m)
    (hc : jsParseFloat c = some sec) :
    ∃ r, parseRAsex s = some r ∧ |r - (h + m / 60 + sec / 3600)| ≤ 1 / 1000000 := by
  refine ⟨h + m / 60 + sec / 3600, ?_, by simp⟩
  simp [parseRAsex, hsplit, ha, hb, hc]

set_option maxRecDepth 1500 in
/-- Witness for C9 at the string `"06:30:00"`. -/
theorem parseRA_sexagesimal_witness :
    ∃ r, parseRAsex "06:30:00" = some r ∧
      |r - ((6 : ℚ) + 30 / 60 + 0 / 3600)| ≤ 1 / 1000000 :=
  parseRA_sexagesimal "06:30:00" "06" "30" "00" 6 30 0
    (by decide) (by with_unfolding_all decide)
    (by with_unfolding_all decide) (by with_unfolding_all decide)

/-- C1 (amended): every record stored by the generic-DSO loop or the HYG
loop carries exactly the successfully parsed (non-`NaN`) right ascension
and declination, and a row whose right ascension or declination fails to
parse is dropped; no range check is applied (see the counterexample below
for the stored out-of-range declination). -/
theorem ingestion_coordinate_invariant :
    (∀ r k e, processDsoRowGeneric r = some (k, e) →
      dsoRaHours r = some e.rightAscension ∧ dsoDecDegrees r = some e.declination) ∧
    (∀ r, dsoRaHours r = none ∨ dsoDecDegrees r = none →
      processDsoRowGeneric r = none) ∧
    (∀ r k e, processHygRow r = some (k, e) →
      hygRa r = some e.rightAscension ∧ hygDec r = some e.declination) ∧
    (∀ r, hygRa r = none ∨ hygDec r = none → processHygRow r = none) := by
  refine ⟨?_, ?_, ?_, ?_⟩
  · intro r k e hstore
    unfold processDsoRowGeneric at hstore
    rcases hra : dsoRaHours r with _ | ra <;> rw [hra] at hstore <;>
      rcases hdec : dsoDecDegrees r with _ | dec <;> rw [hdec] at hstore <;>
        simp at hstore
    rcases hstore with ⟨hname, hk, he⟩
    subst he
    exact ⟨rfl, rfl⟩
  · intro r hnone
    unfold processDsoRowGeneric
    rcases hnone with hra | hdec
    · rw [hra]
    · rw [hdec]
      rcases dsoRaHours r with _ | ra <;> rfl
  · intro r k e hstore
    unfold processHygRow at hstore
    by_cases hname : (hygName r).data.isEmpty
    · rw [if_pos hname] at hstore; exact absurd hstore (by simp)
    · rw [if_neg hname] at hstore
      rcases hra : hygRa r with _ | ra <;> rw [hra] at hstore <;>
        rcases hdec : hygDec r with _ | dec <;> rw [hdec] at hstore <;>
          simp at hstore
      rcases hstore with ⟨hk, he⟩
      subst he
      exact ⟨rfl, rfl⟩
  · intro r hnone
    unfold processHygRow
    by_cases hname : (hygName r).data.isEmpty
    · rw [if_pos hname]
    · rw [if_neg hname]
      rcases hnone with hra | hdec
      · rw [hra]
      · rw [hdec]
        rcases hygRa r with _ | ra <;> rfl

set_option maxRecDepth 1500 in
/-- Witness for C1 at `sampleDsoRow`, whose stored record is
`sampleStoredRec`. -/
theorem ingestion_coordinate_invariant_witness :
    dsoRaHours sampleDsoRow = some sampleStoredRec.rightAscension ∧
    dsoDecDegrees sampleDsoRow = some sampleStoredRec.declination :=
  ingestion_coordinate_invariant.1 sampleDsoRow "obj1" sampleStoredRec
    (by with_unfolding_all decide)

set_option maxRecDepth 1500 in
/-- Counterexample for C1 as stated: the generic-DSO loop stores
`badDsoRow`, whose numeric declination `95` lies outside `[-90, 90]`; the
row is not dropped. -/
theorem dso_out_of_range_dec_stored :
    (processDsoRowGeneric badDsoRow).map (fun e => e.2.declination) = some 95 ∧
    ¬ ((95 : ℚ) ≤ 90) := by
  constructor
  · with_unfolding_all decide
  · norm_num

/-- C2 (amended): the HYG pre-filter keeps exactly the rows with a truthy
proper name or Bayer/Flamsteed designation, or magnitude `< 6.0` (HIP/HD
numbers are not consulted); for stored rows the canonical name follows the
precedence proper → bf → `"HIP "+hip` → `"HD "+hd` → synthesized
`"Star mag {mag:.1f}[ in {con}]"`; rows rejected by the pre-filter are not
loaded at all. -/
theorem hyg_name_precedence :
    (∀ r, hygPreFilter r = true ↔
      (jsTruthy r.proper = true ∨ jsTruthy r.bf = true ∨ hygMagLtSix r = true)) ∧
    (∀ r k e, processHygRow r = some (k, e) →
      e.name = some (hygName r) ∧ k = jsToLower (hygName r)) ∧
    (∀ r, trimTruthy r.proper = true → hygName r = jsTrim (r.proper.getD "")) ∧
    (∀ r, trimTruthy r.proper = false → trimTruthy r.bf = true →
      hygName r = jsTrim (r.bf.getD "")) ∧
    (∀ r, trimTruthy r.proper = false → trimTruthy r.bf = false →
      trimTruthy r.hip = true → hygName r = "HIP " ++ jsTrim (r.hip.getD "")) ∧
    (∀ r, trimTruthy r.proper = false → trimTruthy r.bf = false →
      trimTruthy r.hip = false → trimTruthy r.hd = true →
      hygName r = "HD " ++ jsTrim (r.hd.getD "")) ∧
    (∀ r mv s, trimTruthy r.proper = false → trimTruthy r.bf = false →
      trimTruthy r.hip = false → trimTruthy r.hd = false →
      r.mag = some s → jsParseFloat s = some mv → mv < 6 →
      hygName r = "Star mag " ++ formatFixed1 mv ++
        (if trimTruthy r.con then " in " ++ jsTrim (r.con.getD "") else "")) ∧
    (∀ r rest, hygPreFilter r = false →
      loadHygRows (r :: rest) = loadHygRows rest) := by
  refine ⟨?_, ?_, ?_, ?_, ?_, ?_, ?_, ?_⟩
  · intro r
    simp [hygPreFilter, or_assoc]
  · intro r k e hstore
    unfold processHygRow at hstore
    by_cases hname : (hygName r).data.isEmpty
    · rw [if_pos hname] at hstore; exact absurd hstore (by simp)
    · rw [if_neg hname] at hstore
      rcases hra : hygRa r with _ | ra <;> rw [hra] at hstore <;>
        rcases hdec : hygDec r with _ | dec <;> rw [hdec] at hstore <;>
          simp at hstore
      rcases hstore with ⟨hk, he⟩
      subst he
      exact ⟨rfl, hk.symm⟩
  · intro r h1
    simp [hygName, h1]
  · intro r h1 h2
    simp [hygName, h1, h2]
  · intro r h1 h2 h3
    simp [hygName, h1, h2, h3]
  · intro r h1 h2 h3 h4
    simp [hygName, h1, h2, h3, h4]
  · intro r mv s h1 h2 h3 h4 hmag hparse hlt
    simp [hygName, h1, h2, h3, h4, hmag, hparse, hlt]
  · intro r rest hfilter
    simp [loadHygRows, hfilter]

set_option maxRecDepth 1500 in
/-- Witness for C2 at `vegaRow`: stored under its proper name. -/
theorem hyg_name_precedence_witness :
    vegaStored.name = some (hygName vegaRow) ∧ "vega" = jsToLower (hygName vegaRow) :=
  hyg_name_precedence.2.1 vegaRow "vega" vegaStored (by with_unfolding_all decide)

set_option maxRecDepth 1500 in
/-- Counterexample for C2 as stated: `hipOnlyDimRow` carries the Hipparcos
number `123` but no proper/bf name and magnitude `7.0 ≥ 6.0`; the HYG
pre-filter rejects it, so the record is not loaded at all. -/
theorem hip_only_dim_star_not_loaded :
    hygPreFilter hipOnlyDimRow = false ∧ hipOnlyDimRow.hip = some "123" ∧
    loadHygRows [hipOnlyDimRow] = [] := by
  with_unfolding_all decide

/-- C5 counterexample: the input `"Constructor"` is in none of the four
lookup stages — not a solar-system name, no alias, no star, no DSO — yet the
resolver does not produce the unknown-object error with the original casing:
the plain-object read `SOLAR_SYSTEM_OBJECTS['constructor']` finds the
inherited `Object.prototype.constructor` (truthy), so the solar branch is
taken and `getSolarSystemCoordinates` is called with the lowercased name
(which then throws `Unknown solar system object: constructor`).  The
catalogs are never consulted: even a star catalog entry keyed
`"constructor"` is bypassed. -/
theorem resolver_inherited_key_misroute :
    getEquatorialCoordinates [] [] [] "Constructor" ≠ .notFound "Constructor" ∧
    getEquatorialCoordinates [] [] [] "Constructor" = .solar "constructor" ∧
    getEquatorialCoordinates []
        [("constructor", ⟨0, 0, none, some "Fake", none, none, none⟩)] []
        "Constructor" = .solar "constructor" := by
  refine ⟨?_, ?_, ?_⟩ <;> with_unfolding_all decide

/-- C5 (amended): the resolver lowercases the input and branches on the
truthiness of the plain-object lookup in `SOLAR_SYSTEM_OBJECTS` — truthy both
for the 11 solar-system names and for inherited `Object.prototype` keys such
as `"constructor"` and `"__proto__"`, in which case it delegates to the solar
branch with the lowercased name; otherwise it tries, in order, the alias
table chained into the DSO catalog, the star catalog, the DSO catalog; the
first match wins, and when everything fails the error carries the original
input string with its casing preserved. -/
theorem resolver_precedence (commonNames : List (String × String))
    (starCat dsoCat : List (String × EqRecord)) (objectName : String) :
    (solarLookupTruthy (jsToLower objectName) = true →
      getEquatorialCoordinates commonNames starCat dsoCat objectName =
        .solar (jsToLower objectName)) ∧
    (solarLookupTruthy (jsToLower objectName) = false →
      (∀ cn d, commonNames.lookup (jsToLower objectName) = some cn →
        dsoCat.lookup cn = some d →
        getEquatorialCoordinates commonNames starCat dsoCat objectName = .found d) ∧
      ((match commonNames.lookup (jsToLower objectName) with
        | some cn => dsoCat.lookup cn
        | none => none) = none →
        (∀ st, starCat.lookup (jsToLower objectName) = some st →
          getEquatorialCoordinates commonNames starCat dsoCat objectName = .found st) ∧
        (starCat.lookup (jsToLower objectName) = none →
          (∀ d, dsoCat.lookup (jsToLower objectName) = some d →
            getEquatorialCoordinates commonNames starCat dsoCat objectName = .found d) ∧
          (dsoCat.lookup (jsToLower objectName) = none →
            getEquatorialCoordinates commonNames starCat dsoCat objectName =
              .notFound objectName)))) := by
  constructor
  · intro hsolar
    simp [getEquatorialCoordinates, hsolar]
  · intro hsolar
    constructor
    · intro cn d hcn hd
      simp [getEquatorialCoordinates, hsolar, hcn, hd]
    · intro halias
      constructor
      · intro st hst
        simp [getEquatorialCoordinates, hsolar, halias, hst]
      · intro hstar
        constructor
        · intro d hd
          simp [getEquatorialCoordinates, hsolar, halias, hstar, hd]
        · intro hdso
          simp [getEquatorialCoordinates, hsolar, halias, hstar, hdso]

/-- Witness for C5: an unknown mixed-case name resolves to the not-found
error carrying the input verbatim. -/
theorem resolver_precedence_witness :
    getEquatorialCoordinates [] [] [] "NoSuchThing" = .notFound "NoSuchThing" := by
  have h := resolver_precedence [] [] [] "NoSuchThing"
  exact ((((h.2 (by decide)).2 (by decide)).2 (by decide)).2 (by decide))

/-- C8: angular separation is reflexively zero, symmetric, and always lands
in `[0, 180]` degrees (the clamp keeps the `acos` argument in `[-1, 1]`, so
in the real model the result is everywhere well defined; there is no input
on which it is undefined). -/
theorem angular_separation_props :
    (∀ po : RaDec, calculateAngularSeparation po po = 0) ∧
    (∀ a b : RaDec, calculateAngularSeparation a b = calculateAngularSeparation b a) ∧
    (∀ a b : RaDec, 0 ≤ calculateAngularSeparation a b ∧
      calculateAngularSeparation a b ≤ 180) := by
  refine ⟨?_, ?_, ?_⟩
  · intro po
    simp only [calculateAngularSeparation, sub_self, Real.cos_zero, mul_one]
    have h1 : Real.sin (po.declination * Real.pi / 180) *
        Real.sin (po.declination * Real.pi / 180) +
        Real.cos (po.declination * Real.pi / 180) *
        Real.cos (po.declination * Real.pi / 180) = 1 := by
      have := Real.sin_sq_add_cos_sq (po.declination * Real.pi / 180)
      nlinarith [this]
    rw [h1]
    norm_num [Real.arccos_one]
  · intro a b
    have key : ∀ x y u v : ℝ,
        Real.sin x * Real.sin y + Real.cos x * Real.cos y * Real.cos (u - v) =
        Real.sin y * Real.sin x + Real.cos y * Real.cos x * Real.cos (v - u) := by
      intro x y u v
      rw [show u - v = -(v - u) by ring, Real.cos_neg]
      ring
    simp only [calculateAngularSeparation]
    rw [key]
  · intro a b
    simp only [calculateAngularSeparation]
    constructor
    · exact mul_nonneg (Real.arccos_nonneg _) (by positivity)
    · calc
        Real.arccos _ * (180 / Real.pi) ≤ Real.pi * (180 / Real.pi) :=
          mul_le_mul_of_nonneg_right (Real.arccos_le_pi _) (by positivity)
        _ = 180 := by
          field_simp

/-- `round x = n` from the floor characterization. -/
lemma round_eq_of_bounds (x : ℝ) (n : ℤ) (h1 : (n : ℝ) ≤ x + 1 / 2)
    (h2 : x + 1 / 2 < n + 1) : round x = n := by
  rw [round_eq]
  exact Int.floor_eq_iff.mpr ⟨h1, h2⟩

/-- The `atan2` model always lands in `(-π, π]`. -/
lemma atan2_range (y x : ℝ) : -Real.pi < atan2 y x ∧ atan2 y x ≤ Real.pi := by
  have hpi := Real.pi_pos
  unfold atan2
  split_ifs with hx hx2 hy hy2 hy3
  · have h1 := Real.neg_pi_div_two_lt_arctan (y / x)
    have h2 := Real.arctan_lt_pi_div_two (y / x)
    constructor <;> linarith
  · have h1 := Real.neg_pi_div_two_lt_arctan (y / x)
    have h2 : Real.arctan (y / x) ≤ 0 := by
      have hyx : y / x ≤ 0 := div_nonpos_of_nonneg_of_nonpos hy (le_of_lt hx2)
      have := Real.arctan_strictMono.monotone hyx
      rwa [Real.arctan_zero] at this
    constructor <;> linarith
  · have h2 := Real.arctan_lt_pi_div_two (y / x)
    have h1 : 0 < Real.arctan (y / x) := by
      have hyx : 0 < y / x := div_pos_of_neg_of_neg (lt_of_not_le hy) hx2
      have := Real.arctan_strictMono hyx
      rwa [Real.arctan_zero] at this
    constructor <;> linarith
  · constructor <;> linarith
  · constructor <;> linarith
  · constructor <;> linarith

/-- The normalized bearing angle lands in `[0, 360)`. -/
lemma bearingAngleDeg_range (c1 c2 : RaDec) :
    0 ≤ bearingAngleDeg c1 c2 ∧ bearingAngleDeg c1 c2 < 360 := by
  have hpi := Real.pi_pos
  simp only [bearingAngleDeg]
  set y := Real.sin (c2.rightAscension * 15 * Real.pi / 180 -
    c1.rightAscension * 15 * Real.pi / 180)
  set x := Real.cos (c1.declination * Real.pi / 180) *
      Real.tan (c2.declination * Real.pi / 180) -
    Real.sin (c1.declination * Real.pi / 180) *
      Real.cos (c2.rightAscension * 15 * Real.pi / 180 -
        c1.rightAscension * 15 * Real.pi / 180)
  obtain ⟨hlo, hhi⟩ := atan2_range y x
  have hposc : (0 : ℝ) < 180 / Real.pi := by positivity
  have hub : atan2 y x * (180 / Real.pi) ≤ 180 := by
    calc atan2 y x * (180 / Real.pi) ≤ Real.pi * (180 / Real.pi) :=
          mul_le_mul_of_nonneg_right hhi (le_of_lt hposc)
      _ = 180 := by field_simp
  have hlb : -180 < atan2 y x * (180 / Real.pi) := by
    have := mul_lt_mul_of_pos_right hlo hposc
    have heq : -Real.pi * (180 / Real.pi) = -180 := by
      field_simp
      ring
    linarith [heq ▸ this]
  split_ifs with hneg
  · constructor <;> linarith
  · constructor <;> linarith

/-- Every valid compass index selects an element of `directions`. -/
lemma directions_getD_mem : ∀ k : ℕ, k < 16 → directions.getD k "" ∈ directions := by
  decide

/-- For a nonnegative angle, the compass index is a valid position. -/
lemma cardinalIndex_toNat_lt (a : ℝ) (ha : 0 ≤ a) : (cardinalIndex a).toNat < 16 := by
  unfold cardinalIndex
  have hnn : 0 ≤ round (a / 22.5 + 0.001) := by
    rw [round_eq]
    have : (0 : ℝ) ≤ a / 22.5 + 0.001 + 1 / 2 := by positivity
    exact Int.le_floor.mpr (by push_cast; linarith)
  have h1 : 0 ≤ round (a / 22.5 + 0.001) % 16 :=
    Int.emod_nonneg _ (by norm_num)
  have h2 : round (a / 22.5 + 0.001) % 16 < 16 :=
    Int.emod_lt_of_pos _ (by norm_num)
  omega

/-- C7 (amended): the returned `degrees` is the normalized bearing rounded
to one decimal, hence in `[0, 360]` (it can be exactly `360`, see the
counterexample); the cardinal is always one of the 16 compass points; and
the bucketing maps the exact angles 0°, 90°, 180°, 270° to `N`, `E`, `S`,
`W`. -/
theorem bearing_range_and_buckets :
    (∀ c1 c2 : RaDec, 0 ≤ (calculateBearing c1 c2).1 ∧
      (calculateBearing c1 c2).1 ≤ 360 ∧ (calculateBearing c1 c2).2 ∈ directions) ∧
    directions.getD (cardinalIndex 0).toNat "" = "N" ∧
    directions.getD (cardinalIndex 90).toNat "" = "E" ∧
    directions.getD (cardinalIndex 180).toNat "" = "S" ∧
    directions.getD (cardinalIndex 270).toNat "" = "W" := by
  have hbucket : ∀ (a : ℝ) (n : ℤ), round (a / 22.5 + 0.001) = n →
      cardinalIndex a = n % 16 := by
    intro a n h
    unfold cardinalIndex
    rw [h]
  refine ⟨?_, ?_, ?_, ?_, ?_⟩
  · intro c1 c2
    obtain ⟨hlo, hhi⟩ := bearingAngleDeg_range c1 c2
    have hdeg : (calculateBearing c1 c2).1 = roundTenthR (bearingAngleDeg c1 c2) := rfl
    have hcar : (calculateBearing c1 c2).2 =
        directions.getD (cardinalIndex (bearingAngleDeg c1 c2)).toNat "" := rfl
    refine ⟨?_, ?_, ?_⟩
    · rw [hdeg]
      unfold roundTenthR
      have : (0 : ℤ) ≤ round (10 * bearingAngleDeg c1 c2) := by
        rw [round_eq]
        exact Int.le_floor.mpr (by push_cast; linarith)
      have hcast : (0 : ℝ) ≤ ((round (10 * bearingAngleDeg c1 c2) : ℤ) : ℝ) := by
        exact_mod_cast this
      positivity
    · rw [hdeg]
      unfold roundTenthR
      have hup : round (10 * bearingAngleDeg c1 c2) ≤ 3600 := by
        rw [round_eq]
        have : ⌊10 * bearingAngleDeg c1 c2 + 1 / 2⌋ < 3601 :=
          Int.floor_lt.mpr (by push_cast; linarith)
        omega
      have hcast : ((round (10 * bearingAngleDeg c1 c2) : ℤ) : ℝ) ≤ 3600 := by
        exact_mod_cast hup
      linarith
    · rw [hcar]
      exact directions_getD_mem _ (cardinalIndex_toNat_lt _ hlo)
  · rw [hbucket 0 0 (round_eq_of_bounds _ _ (by norm_num) (by norm_num))]
    rfl
  · rw [hbucket 90 4 (round_eq_of_bounds _ _ (by norm_num) (by norm_num))]
    rfl
  · rw [hbucket 180 8 (round_eq_of_bounds _ _ (by norm_num) (by norm_num))]
    rfl
  · rw [hbucket 270 12 (round_eq_of_bounds _ _ (by norm_num) (by norm_num))]
    rfl

/-- `arctan s < s` for positive `s`, via `s* := arctan s < tan s* = s`. -/
lemma arctan_lt_self_of_pos {s : ℝ} (hs : 0 < s) : Real.arctan s < s := by
  have h1 : 0 < Real.arctan s := by
    have := Real.arctan_strictMono hs
    rwa [Real.arctan_zero] at this
  have h2 := Real.arctan_lt_pi_div_two s
  have h3 := Real.lt_tan h1 h2
  rwa [Real.tan_arctan] at h3

/-- Evaluation of the bearing angle when the position-angle components come
out as `y = -sin(π/120000)` and `x = 1`: an angle strictly between
`360 - 0.0015` and `360`. -/
lemma bearingAngleDeg_eval (c1 c2 : RaDec)
    (h1 : Real.sin (c2.rightAscension * 15 * Real.pi / 180 -
      c1.rightAscension * 15 * Real.pi / 180) =
        -Real.sin (Real.pi / 120000))
    (h2 : Real.cos (c1.declination * Real.pi / 180) *
        Real.tan (c2.declination * Real.pi / 180) -
      Real.sin (c1.declination * Real.pi / 180) *
        Real.cos (c2.rightAscension * 15 * Real.pi / 180 -
          c1.rightAscension * 15 * Real.pi / 180) = 1) :
    bearingAngleDeg c1 c2 =
      Real.arctan (-Real.sin (Real.pi / 120000)) * (180 / Real.pi) + 360 ∧
    360 - (3 / 2000 : ℝ) < bearingAngleDeg c1 c2 ∧ bearingAngleDeg c1 c2 < 360 := by
  have hpi := Real.pi_pos
  have htpos : (0 : ℝ) < Real.pi / 120000 := by positivity
  have htlt : Real.pi / 120000 < Real.pi := by linarith
  have hsin_pos : 0 < Real.sin (Real.pi / 120000) :=
    Real.sin_pos_of_pos_of_lt_pi htpos htlt
  have hsin_lt : Real.sin (Real.pi / 120000) < Real.pi / 120000 :=
    Real.sin_lt htpos
  have harc_neg : Real.arctan (-Real.sin (Real.pi / 120000)) < 0 := by
    rw [Real.arctan_neg]
    have : 0 < Real.arctan (Real.sin (Real.pi / 120000)) := by
      have := Real.arctan_strictMono hsin_pos
      rwa [Real.arctan_zero] at this
    linarith
  have harc_gt : -(Real.pi / 120000) < Real.arctan (-Real.sin (Real.pi / 120000)) := by
    rw [Real.arctan_neg]
    have := arctan_lt_self_of_pos hsin_pos
    linarith
  have hposc : (0 : ℝ) < 180 / Real.pi := by positivity
  have hdeg_neg : Real.arctan (-Real.sin (Real.pi / 120000)) * (180 / Real.pi) < 0 :=
    mul_neg_of_neg_of_pos harc_neg hposc
  have hdeg_gt : -(3 / 2000 : ℝ) <
      Real.arctan (-Real.sin (Real.pi / 120000)) * (180 / Real.pi) := by
    have heq : -(Real.pi / 120000) * (180 / Real.pi) = -(3 / 2000 : ℝ) := by
      field_simp
      ring
    have := mul_lt_mul_of_pos_right harc_gt hposc
    linarith [heq ▸ this]
  have hang : bearingAngleDeg c1 c2 =
      Real.arctan (-Real.sin (Real.pi / 120000)) * (180 / Real.pi) + 360 := by
    simp only [bearingAngleDeg]
    rw [h1, h2]
    have hat : atan2 (-Real.sin (Real.pi / 120000)) 1 =
        Real.arctan (-Real.sin (Real.pi / 120000)) := by
      unfold atan2
      rw [if_pos one_pos, div_one]
    rw [hat, if_pos hdeg_neg]
  refine ⟨hang, ?_, ?_⟩ <;> rw [hang] <;> linarith

/-- Counterexample for C7 as stated: at `bearingCex1`/`bearingCex2` the
normalized bearing angle is just below 360°, and the `toFixed(1)` rounding
of the returned `degrees` produces exactly `360`, outside `[0, 360)`. -/
theorem bearing_degrees_can_reach_360 :
    (calculateBearing bearingCex1 bearingCex2).1 = 360 := by
  have h1 : Real.sin (bearingCex2.rightAscension * 15 * Real.pi / 180 -
      bearingCex1.rightAscension * 15 * Real.pi / 180) =
        -Real.sin (Real.pi / 120000) := by
    show Real.sin ((0 : ℝ) * 15 * Real.pi / 180 -
      (1 / 10000 : ℝ) * 15 * Real.pi / 180) = _
    rw [show (0 : ℝ) * 15 * Real.pi / 180 - (1 / 10000 : ℝ) * 15 * Real.pi / 180 =
      -(Real.pi / 120000) by ring]
    exact Real.sin_neg _
  have h2 : Real.cos (bearingCex1.declination * Real.pi / 180) *
      Real.tan (bearingCex2.declination * Real.pi / 180) -
      Real.sin (bearingCex1.declination * Real.pi / 180) *
        Real.cos (bearingCex2.rightAscension * 15 * Real.pi / 180 -
          bearingCex1.rightAscension * 15 * Real.pi / 180) = 1 := by
    show Real.cos ((0 : ℝ) * Real.pi / 180) * Real.tan ((45 : ℝ) * Real.pi / 180) -
      Real.sin ((0 : ℝ) * Real.pi / 180) * Real.cos _ = 1
    rw [show (0 : ℝ) * Real.pi / 180 = 0 by ring,
      show (45 : ℝ) * Real.pi / 180 = Real.pi / 4 by ring,
      Real.cos_zero, Real.sin_zero, Real.tan_pi_div_four]
    ring
  obtain ⟨-, hgt, hlt⟩ := bearingAngleDeg_eval bearingCex1 bearingCex2 h1 h2
  have hdeg : (calculateBearing bearingCex1 bearingCex2).1 =
      roundTenthR (bearingAngleDeg bearingCex1 bearingCex2) := rfl
  rw [hdeg]
  unfold roundTenthR
  have hr : round (10 * bearingAngleDeg bearingCex1 bearingCex2) = 3600 :=
    round_eq_of_bounds _ _ (by push_cast; linarith) (by push_cast; linarith)
  rw [hr]
  norm_num

/-! ## Pathfinder helper lemmas -/

/-- One scan step either keeps the accumulator or switches to a qualifying
candidate that strictly improves the best distance so far. -/
lemma hopScanStep_cases (env : HopEnv) (p : HopParams) (t : ℚ × ℚ)
    (tId : String) (visited : List String) (cur : String × EqRecord)
    (curDist : ℚ) (acc : Option (String × EqRecord) × ℚ)
    (c : String × EqRecord) :
    hopScanStep env p t tId visited cur curDist acc c = acc ∨
    (hopQualifies env p t tId visited cur curDist c ∧
      env.sep (entryPos c) t < acc.2 ∧
      hopScanStep env p t tId visited cur curDist acc c =
        (some c, env.sep (entryPos c) t)) := by
  unfold hopScanStep
  by_cases h1 : (visited.contains c.1 || c.1 == tId) = true
  · rw [if_pos h1]
    exact Or.inl rfl
  · rw [if_neg h1]
    simp only [Bool.or_eq_true, not_or, Bool.not_eq_true, beq_eq_false_iff_ne] at h1
    cases hm : c.2.magnitude with
    | none => exact Or.inl rfl
    | some m =>
      dsimp only []
      by_cases h2 : p.maxHopMagnitude < m
      · rw [if_pos h2]
        exact Or.inl rfl
      · rw [if_neg h2]
        by_cases h3 : p.fovDegrees < env.sep (entryPos cur) (entryPos c)
        · rw [if_pos h3]
          exact Or.inl rfl
        · rw [if_neg h3]
          by_cases h4 : curDist ≤ env.sep (entryPos c) t
          · rw [if_pos h4]
            exact Or.inl rfl
          · rw [if_neg h4]
            by_cases h5 : env.alt (entryPos c) ≤ 0
            · rw [if_pos h5]
              exact Or.inl rfl
            · rw [if_neg h5]
              by_cases h6 : env.sep (entryPos c) t < acc.2
              · rw [if_pos h6]
                exact Or.inr ⟨⟨h1.1, h1.2, ⟨m, hm, not_lt.mp h2⟩, not_lt.mp h3,
                  lt_of_not_le h4, lt_of_not_le h5⟩, h6, rfl⟩
              · rw [if_neg h6]
                exact Or.inl rfl

/-- A qualifying candidate that strictly improves the best distance is
always taken. -/
lemma hopScanStep_qual (env : HopEnv) (p : HopParams) (t : ℚ × ℚ)
    (tId : String) (visited : List String) (cur : String × EqRecord)
    (curDist : ℚ) (acc : Option (String × EqRecord) × ℚ)
    (c : String × EqRecord)
    (hq : hopQualifies env p t tId visited cur curDist c)
    (hlt : env.sep (entryPos c) t < acc.2) :
    hopScanStep env p t tId visited cur curDist acc c =
      (some c, env.sep (entryPos c) t) := by
  obtain ⟨hv, ht, ⟨m, hm, hmle⟩, hfov, hcd, halt⟩ := hq
  have hv' : c.1 ∉ visited := by simpa using hv
  unfold hopScanStep
  rw [if_neg (by simp [hv', ht]), hm]
  dsimp only []
  rw [if_neg (not_lt.mpr hmle), if_neg (not_lt.mpr hfov),
    if_neg (not_le.mpr hcd), if_neg (not_le.mpr halt), if_pos hlt]

/-- The best distance never increases across a scan step. -/
lemma hopScanStep_snd_le (env : HopEnv) (p : HopParams) (t : ℚ × ℚ)
    (tId : String) (visited : List String) (cur : String × EqRecord)
    (curDist : ℚ) (acc : Option (String × EqRecord) × ℚ)
    (c : String × EqRecord) :
    (hopScanStep env p t tId visited cur curDist acc c).2 ≤ acc.2 := by
  rcases hopScanStep_cases env p t tId visited cur curDist acc c with h | ⟨-, hlt, h⟩
  · rw [h]
  · rw [h]
    exact le_of_lt hlt

/-- After scanning a qualifying candidate, the best distance is no worse
than that candidate's distance to the target. -/
lemma hopScanStep_qual_le (env : HopEnv) (p : HopParams) (t : ℚ × ℚ)
    (tId : String) (visited : List String) (cur : String × EqRecord)
    (curDist : ℚ) (acc : Option (String × EqRecord) × ℚ)
    (c : String × EqRecord)
    (hq : hopQualifies env p t tId visited cur curDist c) :
    (hopScanStep env p t tId visited cur curDist acc c).2 ≤
      env.sep (entryPos c) t := by
  by_cases hlt : env.sep (entryPos c) t < acc.2
  · rw [hopScanStep_qual env p t tId visited cur curDist acc c hq hlt]
  · exact le_trans (hopScanStep_snd_le env p t tId visited cur curDist acc c)
      (not_lt.mp hlt)

/-- Invariant of the scan fold: the final best distance never exceeds the
initial one; a `none` result means nothing qualified; a `some` result is a
qualifying catalog candidate whose target distance is the final best
distance, minimal among all qualifying candidates of the scanned list. -/
lemma findBest_fold (env : HopEnv) (p : HopParams) (t : ℚ × ℚ) (tId : String)
    (visited : List String) (cur : String × EqRecord) (curDist : ℚ) :
    ∀ (l : List (String × EqRecord)) (acc : Option (String × EqRecord) × ℚ),
    acc.2 ≤ curDist →
    (acc.1 = none → acc.2 = curDist) →
    (∀ b, acc.1 = some b → hopQualifies env p t tId visited cur curDist b ∧
      acc.2 = env.sep (entryPos b) t) →
    ((l.foldl (hopScanStep env p t tId visited cur curDist) acc).2 ≤ acc.2) ∧
    ((l.foldl (hopScanStep env p t tId visited cur curDist) acc).1 = none →
      acc.1 = none ∧
      (l.foldl (hopScanStep env p t tId visited cur curDist) acc).2 = acc.2 ∧
      ∀ c ∈ l, ¬ hopQualifies env p t tId visited cur curDist c) ∧
    (∀ b, (l.foldl (hopScanStep env p t tId visited cur curDist) acc).1 = some b →
      hopQualifies env p t tId visited cur curDist b ∧
      (l.foldl (hopScanStep env p t tId visited cur curDist) acc).2 =
        env.sep (entryPos b) t ∧
      (b ∈ l ∨ acc.1 = some b)) ∧
    (∀ c ∈ l, hopQualifies env p t tId visited cur curDist c →
      (l.foldl (hopScanStep env p t tId visited cur curDist) acc).2 ≤
        env.sep (entryPos c) t) := by
  intro l
  induction l with
  | nil =>
    intro acc hle hnone hsome
    refine ⟨le_refl _, ?_, ?_, ?_⟩
    · intro h
      exact ⟨h, rfl, by simp⟩
    · intro b hb
      obtain ⟨hq, he⟩ := hsome b hb
      exact ⟨hq, he, Or.inr hb⟩
    · intro c hc
      simp at hc
  | cons c l ih =>
    intro acc hle hnone hsome
    have hstep := hopScanStep_cases env p t tId visited cur curDist acc c
    have hle' : (hopScanStep env p t tId visited cur curDist acc c).2 ≤ curDist :=
      le_trans (hopScanStep_snd_le env p t tId visited cur curDist acc c) hle
    have hnone' : (hopScanStep env p t tId visited cur curDist acc c).1 = none →
        (hopScanStep env p t tId visited cur curDist acc c).2 = curDist := by
      intro h
      rcases hstep with he | ⟨-, -, he⟩
      · rw [he] at h ⊢
        exact hnone h
      · rw [he] at h
        exact absurd h (by simp)
    have hsome' : ∀ b,
        (hopScanStep env p t tId visited cur curDist acc c).1 = some b →
        hopQualifies env p t tId visited cur curDist b ∧
        (hopScanStep env p t tId visited cur curDist acc c).2 =
          env.sep (entryPos b) t := by
      intro b hb
      rcases hstep with he | ⟨hq, -, he⟩
      · rw [he] at hb ⊢
        exact hsome b hb
      · rw [he] at hb ⊢
        simp at hb
        subst hb
        exact ⟨hq, rfl⟩
    obtain ⟨ih1, ih2, ih3, ih4⟩ :=
      ih (hopScanStep env p t tId visited cur curDist acc c) hle' hnone' hsome'
    rw [List.foldl_cons]
    refine ⟨?_, ?_, ?_, ?_⟩
    · exact le_trans ih1 (hopScanStep_snd_le env p t tId visited cur curDist acc c)
    · intro h
      obtain ⟨ha, hv2, hrest⟩ := ih2 h
      have hacc : hopScanStep env p t tId visited cur curDist acc c = acc := by
        rcases hstep with he | ⟨-, -, he⟩
        · exact he
        · rw [he] at ha
          exact absurd ha (by simp)
      have ha' : acc.1 = none := by rw [← hacc]; exact ha
      refine ⟨ha', by rw [hv2, hacc], ?_⟩
      intro x hx
      rcases List.mem_cons.mp hx with hx | hx
      · subst hx
        intro hq
        have hlt : env.sep (entryPos x) t < acc.2 := by
          rw [hnone ha']
          exact hq.2.2.2.2.1
        have hupd := hopScanStep_qual env p t tId visited cur curDist acc x hq hlt
        have : acc.1 = some x := by rw [← hacc, hupd]
        rw [ha'] at this
        exact absurd this (by simp)
      · exact hrest x hx
    · intro b hb
      obtain ⟨hq, he, hor⟩ := ih3 b hb
      refine ⟨hq, he, ?_⟩
      rcases hor with hin | hacc1
      · exact Or.inl (List.mem_cons_of_mem c hin)
      · rcases hstep with he2 | ⟨-, -, he2⟩
        · rw [he2] at hacc1
          exact Or.inr hacc1
        · rw [he2] at hacc1
          simp at hacc1
          subst hacc1
          exact Or.inl (List.mem_cons_self c l)
    · intro x hx hq
      rcases List.mem_cons.mp hx with hx | hx
      · subst hx
        exact le_trans ih1
          (hopScanStep_qual_le env p t tId visited cur curDist acc x hq)
      · exact ih4 x hx hq

/-- Specification of one full catalog scan returning a candidate. -/
lemma findBestNextHop_some_spec (env : HopEnv) (p : HopParams) (t : ℚ × ℚ)
    (tId : String) (cat : List (String × EqRecord)) (visited : List String)
    (cur : String × EqRecord) (curDist : ℚ) (best : String × EqRecord)
    (newDist : ℚ)
    (h : findBestNextHop env p t tId cat visited cur curDist = (some best, newDist)) :
    best ∈ cat ∧ hopQualifies env p t tId visited cur curDist best ∧
    newDist = env.sep (entryPos best) t ∧
    ∀ c ∈ cat, hopQualifies env p t tId visited cur curDist c →
      newDist ≤ env.sep (entryPos c) t := by
  obtain ⟨-, -, h3, h4⟩ := findBest_fold env p t tId visited cur curDist cat
    (none, curDist) (le_refl _) (fun _ => rfl) (by intro b hb; simp at hb)
  unfold findBestNextHop at h
  obtain ⟨hq, he, hor⟩ := h3 best (by rw [h])
  have hnd : newDist = env.sep (entryPos best) t := by
    rw [h] at he
    exact he
  refine ⟨?_, hq, hnd, ?_⟩
  · rcases hor with hin | habs
    · exact hin
    · exact absurd habs (by simp)
  · intro c hc hqc
    have := h4 c hc hqc
    rw [h] at this
    exact this

/-- A scan finding nothing leaves the accumulator untouched and certifies
that no catalog candidate qualifies. -/
lemma findBestNextHop_none_spec (env : HopEnv) (p : HopParams) (t : ℚ × ℚ)
    (tId : String) (cat : List (String × EqRecord)) (visited : List String)
    (cur : String × EqRecord) (curDist : ℚ)
    (h : (findBestNextHop env p t tId cat visited cur curDist).1 = none) :
    ∀ c ∈ cat, ¬ hopQualifies env p t tId visited cur curDist c := by
  obtain ⟨-, h2, -, -⟩ := findBest_fold env p t tId visited cur curDist cat
    (none, curDist) (le_refl _) (fun _ => rfl) (by intro b hb; simp at hb)
  exact (h2 h).2.2

/-- Exhausted fuel terminates the loop with `PathNotFound` and the
sequence accumulated so far. -/
lemma hopLoop_zero (env : HopEnv) (p : HopParams) (t : ℚ × ℚ) (tId : String)
    (cat : List (String × EqRecord)) (hopNum : ℕ) (cur : String × EqRecord)
    (curDist : ℚ) (visited : List String) (seq : List Hop) :
    hopLoop env p t tId cat 0 hopNum cur curDist visited seq =
      (.PathNotFound, seq, cur) := rfl

/-- A step with no qualifying candidate terminates the loop with
`PathNotFound` and the sequence accumulated so far. -/
lemma hopLoop_none (env : HopEnv) (p : HopParams) (t : ℚ × ℚ) (tId : String)
    (cat : List (String × EqRecord)) (fuel hopNum : ℕ)
    (cur : String × EqRecord) (curDist : ℚ) (visited : List String)
    (seq : List Hop)
    (h : (findBestNextHop env p t tId cat visited cur curDist).1 = none) :
    hopLoop env p t tId cat (fuel + 1) hopNum cur curDist visited seq =
      (.PathNotFound, seq, cur) := by
  rcases hfind : findBestNextHop env p t tId cat visited cur curDist with ⟨f1, f2⟩
  rw [hfind] at h
  simp only at h
  subst h
  simp only [hopLoop, hfind]

/-- `insertByMag` never produces the empty list. -/
lemma insertByMag_ne_nil (e : String × EqRecord) (l : List (String × EqRecord)) :
    insertByMag e l ≠ [] := by
  cases l with
  | nil => simp [insertByMag]
  | cons a rest =>
    unfold insertByMag
    split_ifs <;> simp

/-- The stable sort of a nonempty list is nonempty. -/
lemma stableSortByMag_eq_nil (l : List (String × EqRecord))
    (h : stableSortByMag l = []) : l = [] := by
  cases l with
  | nil => rfl
  | cons a rest =>
    exact absurd h (insertByMag_ne_nil a (stableSortByMag rest))

/-- The head of the stable magnitude sort is the earliest element of the
input achieving the minimal magnitude key: the input splits around it with
every earlier element strictly dimmer, and it is `≤` everything. -/
lemma stableSortByMag_head (l : List (String × EqRecord)) :
    ∀ e : String × EqRecord, (stableSortByMag l).head? = some e →
    ∃ l1 l2, l = l1 ++ e :: l2 ∧ (∀ y ∈ l1, magKey e < magKey y) ∧
      ∀ y ∈ l, magKey e ≤ magKey y := by
  induction l with
  | nil =>
    intro e h
    simp [stableSortByMag] at h
  | cons a rest ih =>
    intro e h
    have hsort : stableSortByMag (a :: rest) =
        insertByMag a (stableSortByMag rest) := rfl
    rw [hsort] at h
    cases hrest : stableSortByMag rest with
    | nil =>
      have hrnil : rest = [] := stableSortByMag_eq_nil rest hrest
      rw [hrest] at h
      simp [insertByMag] at h
      subst h
      subst hrnil
      exact ⟨[], [], rfl, by simp, by simp⟩
    | cons b s =>
      rw [hrest] at h
      obtain ⟨r1, r2, hdec, hstrict, hmin⟩ := ih b (by rw [hrest]; rfl)
      unfold insertByMag at h
      by_cases hab : magKey a ≤ magKey b
      · rw [if_pos hab] at h
        simp at h
        subst h
        refine ⟨[], rest, rfl, by simp, ?_⟩
        intro y hy
        rcases List.mem_cons.mp hy with hy | hy
        · subst hy
          exact le_refl _
        · exact le_trans hab (hmin y hy)
      · rw [if_neg hab] at h
        simp at h
        subst h
        refine ⟨a :: r1, r2, by simp [hdec], ?_, ?_⟩
        · intro y hy
          rcases List.mem_cons.mp hy with hy | hy
          · subst hy
            exact lt_of_not_le hab
          · exact hstrict y hy
        · intro y hy
          rcases List.mem_cons.mp hy with hy | hy
          · subst hy
            exact le_of_lt (lt_of_not_le hab)
          · exact hmin y hy

/-- Splitting a filtered list around an element splits the original list,
with the earlier filtered elements coming from the earlier part. -/
lemma filter_decomp {α : Type} (q : α → Bool) :
    ∀ (l f1 : List α) (x : α) (f2 : List α), l.filter q = f1 ++ x :: f2 →
    ∃ l1 l2, l = l1 ++ x :: l2 ∧ l1.filter q = f1 ∧ q x = true := by
  intro l
  induction l with
  | nil =>
    intro f1 x f2 h
    simp at h
  | cons a rest ih =>
    intro f1 x f2 h
    by_cases hqa : q a
    · rw [List.filter_cons_of_pos hqa] at h
      cases f1 with
      | nil =>
        simp at h
        obtain ⟨hax, hfilter⟩ := h
        subst hax
        exact ⟨[], rest, rfl, rfl, hqa⟩
      | cons a1 f1t =>
        simp at h
        obtain ⟨haa1, hfilter⟩ := h
        obtain ⟨l1, l2, hdec, hf, hqx⟩ := ih f1t x f2 hfilter
        refine ⟨a :: l1, l2, by simp [hdec], ?_, hqx⟩
        rw [List.filter_cons_of_pos hqa, hf, haa1]
    · rw [List.filter_cons_of_neg hqa] at h
      obtain ⟨l1, l2, hdec, hf, hqx⟩ := ih f1 x f2 h
      refine ⟨a :: l1, l2, by simp [hdec], ?_, hqx⟩
      rw [List.filter_cons_of_neg hqa, hf]

/-- C4: the start star is selected by filtering the catalog for candidates
with defined magnitude `≤ startStarMagnitudeThreshold`, separation to the
target `≤ initialSearchRadiusDegrees`, and positive altitude; among the
qualifying candidates the one with the lowest magnitude wins, ties broken
by catalog iteration order; no qualifying candidate gives the terminal
`NoStartingStarFound`. -/
theorem start_star_selection (env : HopEnv) (p : HopParams)
    (cat : List (String × EqRecord)) (t : ℚ × ℚ) (tId : String)
    (hvis : 0 < env.alt t) :
    ((∀ s ∈ cat, startQualifies env p t s = false) →
      findHoppingPath env p cat t tId = ⟨.NoStartingStarFound, [], none, none⟩) ∧
    (∀ s, startQualifies env p t s = true ↔
      ((∃ m, s.2.magnitude = some m ∧ m ≤ p.startStarMagnitudeThreshold) ∧
        env.sep (entryPos s) t ≤ p.initialSearchRadiusDegrees ∧
        0 < env.alt (entryPos s))) ∧
    (∀ s, selectStartStar env p t cat = some s →
      s ∈ cat ∧ startQualifies env p t s = true ∧
      (∀ y ∈ cat, startQualifies env p t y = true → magKey s ≤ magKey y) ∧
      ∃ l1 l2, cat = l1 ++ s :: l2 ∧
        ∀ y ∈ l1, startQualifies env p t y = true → magKey s < magKey y) ∧
    (∀ s, selectStartStar env p t cat = some s →
      (findHoppingPath env p cat t tId).startStar = some s) := by
  refine ⟨?_, ?_, ?_, ?_⟩
  · intro hall
    have hfilter : cat.filter (startQualifies env p t) = [] := by
      rw [List.filter_eq_nil_iff]
      intro a ha
      simp [hall a ha]
    have hsel : selectStartStar env p t cat = none := by
      unfold selectStartStar
      rw [hfilter]
      rfl
    unfold findHoppingPath
    rw [if_neg (not_le.mpr hvis), hsel]
  · intro s
    cases hm : s.2.magnitude with
    | none => simp [startQualifies, hm]
    | some m => simp [startQualifies, hm, and_assoc]
  · intro s hsel
    unfold selectStartStar at hsel
    obtain ⟨f1, f2, hdec, hstrict, hmin⟩ :=
      stableSortByMag_head (cat.filter (startQualifies env p t)) s hsel
    have hsmem : s ∈ cat.filter (startQualifies env p t) := by
      rw [hdec]
      simp
    obtain ⟨hscat, hsq⟩ := List.mem_filter.mp hsmem
    obtain ⟨l1, l2, hcat, hf1, -⟩ :=
      filter_decomp (startQualifies env p t) cat f1 s f2 hdec
    refine ⟨hscat, hsq, ?_, l1, l2, hcat, ?_⟩
    · intro y hy hqy
      exact hmin y (List.mem_filter.mpr ⟨hy, hqy⟩)
    · intro y hy hqy
      have : y ∈ f1 := by
        rw [← hf1]
        exact List.mem_filter.mpr ⟨hy, hqy⟩
      exact hstrict y this
  · intro s hsel
    unfold findHoppingPath
    rw [if_neg (not_le.mpr hvis), hsel]
    dsimp only
    by_cases hfov : env.sep (entryPos s) t ≤ p.fovDegrees
    · rw [if_pos hfov]
    · rw [if_neg hfov]

/-- Witness for C4: a catalog whose only star has no recorded magnitude
yields `NoStartingStarFound`. -/
theorem start_star_selection_witness :
    findHoppingPath envW pW catNoMag (0, 0) "m13" =
      ⟨.NoStartingStarFound, [], none, none⟩ :=
  (start_star_selection envW pW catNoMag (0, 0) "m13" (by decide)).1 (by decide)

/-- C3: in every hop iteration the scan returns, when it returns anything,
a not-yet-visited, non-target catalog star with defined magnitude
`≤ maxHopMagnitude`, within `fovDegrees` of the current star, strictly
closer to the target, above the horizon, and of minimal resulting distance
to the target among all such candidates; when the scan finds nothing, the
loop terminates with `PathNotFound` carrying the hops accumulated so far,
as it also does when the iteration budget runs out, and when the very first
scan fails the whole result is `PathNotFound` with an empty hop
sequence. -/
theorem greedy_hop_selection (env : HopEnv) (p : HopParams) (t : ℚ × ℚ)
    (tId : String) (cat : List (String × EqRecord)) :
    (∀ visited cur curDist best newDist,
      findBestNextHop env p t tId cat visited cur curDist = (some best, newDist) →
      best ∈ cat ∧ hopQualifies env p t tId visited cur curDist best ∧
      newDist = env.sep (entryPos best) t ∧
      ∀ c ∈ cat, hopQualifies env p t tId visited cur curDist c →
        newDist ≤ env.sep (entryPos c) t) ∧
    (∀ visited cur curDist fuel hopNum seq,
      (findBestNextHop env p t tId cat visited cur curDist).1 = none →
      hopLoop env p t tId cat (fuel + 1) hopNum cur curDist visited seq =
        (.PathNotFound, seq, cur)) ∧
    (∀ hopNum cur curDist visited seq,
      hopLoop env p t tId cat 0 hopNum cur curDist visited seq =
        (.PathNotFound, seq, cur)) ∧
    (∀ s, 0 < env.alt t → selectStartStar env p t cat = some s →
      p.fovDegrees < env.sep (entryPos s) t →
      (findBestNextHop env p t tId cat [s.1] s (env.sep (entryPos s) t)).1 = none →
      findHoppingPath env p cat t tId =
        ⟨.PathNotFound, [], some s, some (env.bearing (entryPos s) t)⟩) := by
  refine ⟨?_, ?_, ?_, ?_⟩
  · intro visited cur curDist best newDist h
    exact findBestNextHop_some_spec env p t tId cat visited cur curDist best
      newDist h
  · intro visited cur curDist fuel hopNum seq h
    exact hopLoop_none env p t tId cat fuel hopNum cur curDist visited seq h
  · intro hopNum cur curDist visited seq
    exact hopLoop_zero env p t tId cat hopNum cur curDist visited seq
  · intro s hvis hsel hfov hnone
    unfold findHoppingPath
    rw [if_neg (not_le.mpr hvis), hsel]
    dsimp only
    rw [if_neg (not_le.mpr hfov)]
    cases hfuel : p.maxHops with
    | zero =>
      rw [hopLoop_zero]
    | succ n =>
      rw [hopLoop_none env p t tId cat n 1 s (env.sep (entryPos s) t) [s.1] [] hnone]

/-- Witness for C3: on a one-star catalog the scan returns that star with
its distance to the target, certifying all candidate conditions and
minimality. -/
theorem greedy_hop_selection_witness :
    starVega ∈ catW ∧
    hopQualifies envW pW (0, 0) "m13" [] starNoMag 7 starVega ∧
    (5 : ℚ) = envW.sep (entryPos starVega) (0, 0) ∧
    ∀ c ∈ catW, hopQualifies envW pW (0, 0) "m13" [] starNoMag 7 c →
      (5 : ℚ) ≤ envW.sep (entryPos c) (0, 0) :=
  (greedy_hop_selection envW pW (0, 0) "m13" catW).1 [] starNoMag 7 starVega 5
    (by decide)

/-- C6: when the target resolves, is visible, and a start star is selected
whose separation to the target is within the FOV, the run terminates with
`TargetInStartFOV`, an empty hop sequence, and the bearing from the start
star to the target. -/
theorem target_in_start_fov (env : HopEnv) (p : HopParams)
    (commonNames : List (String × String))
    (starCat dsoCat : List (String × EqRecord)) (targetName : String)
    (rec : EqRecord) (s : String × EqRecord)
    (hres : getEquatorialCoordinates commonNames starCat dsoCat targetName =
      .found rec)
    (hvis : 0 < env.alt (rec.rightAscension, rec.declination))
    (hsel : selectStartStar env p (rec.rightAscension, rec.declination) starCat =
      some s)
    (hfov : env.sep (entryPos s) (rec.rightAscension, rec.declination) ≤
      p.fovDegrees) :
    executeStarHopping env p commonNames starCat dsoCat targetName =
      ⟨.TargetInStartFOV, [], some s,
        some (env.bearing (entryPos s) (rec.rightAscension, rec.declination))⟩ := by
  unfold executeStarHopping
  rw [hres]
  dsimp only
  unfold findHoppingPath
  rw [if_neg (not_le.mpr hvis), hsel]
  dsimp only
  rw [if_pos hfov]

/-- Witness for C6: resolving `"M13"` against a one-DSO catalog and hopping
from a one-star catalog whose star sees the target within a 6° FOV. -/
theorem target_in_start_fov_witness :
    executeStarHopping envW pW [] catW dsoCatW "M13" =
      ⟨.TargetInStartFOV, [], some starVega,
        some (envW.bearing (entryPos starVega)
          (recM13.rightAscension, recM13.declination))⟩ :=
  target_in_start_fov envW pW [] catW dsoCatW "M13" recM13 starVega
    (by with_unfolding_all decide) (by with_unfolding_all decide)
    (by with_unfolding_all decide) (by with_unfolding_all decide)

/-! ## Listing helper lemmas -/

/-- Membership through the string insertion step. -/
lemma mem_insertStr (s a : String) : ∀ l, a ∈ insertStr s l ↔ a = s ∨ a ∈ l := by
  intro l
  induction l with
  | nil => simp [insertStr]
  | cons b rest ih =>
    unfold insertStr
    split_ifs with h
    · simp
    · simp only [List.mem_cons, ih]
      tauto

/-- Sorting the names does not change membership. -/
lemma mem_sortStrings (a : String) : ∀ l, a ∈ sortStrings l ↔ a ∈ l := by
  intro l
  induction l with
  | nil => simp [sortStrings]
  | cons b rest ih =>
    have : sortStrings (b :: rest) = insertStr b (sortStrings rest) := rfl
    rw [this, mem_insertStr]
    simp [ih]

/-- Membership through the numeric-suffix insertion step. -/
lemma mem_insertBySuffix (kind : DsoKind) (s a : String) :
    ∀ l, a ∈ insertBySuffix kind s l ↔ a = s ∨ a ∈ l := by
  intro l
  induction l with
  | nil => simp [insertBySuffix]
  | cons b rest ih =>
    unfold insertBySuffix
    split_ifs with h
    · simp
    · simp only [List.mem_cons, ih]
      tauto

/-- The numeric-suffix sort does not change membership. -/
lemma mem_sortBySuffix (kind : DsoKind) (a : String) :
    ∀ l, a ∈ sortBySuffix kind l ↔ a ∈ l := by
  intro l
  induction l with
  | nil => simp [sortBySuffix]
  | cons b rest ih =>
    have : sortBySuffix kind (b :: rest) =
        insertBySuffix kind b (sortBySuffix kind rest) := rfl
    rw [this, mem_insertBySuffix]
    simp [ih]

/-- Pagination only drops elements. -/
lemma mem_paginate (limit : Option ℕ) (offset : ℕ) (l : List String)
    (a : String) (h : a ∈ paginate limit offset l) : a ∈ l := by
  cases limit with
  | none => exact h
  | some k =>
    have h1 : a ∈ (l.drop offset) := List.take_subset k _ h
    exact List.drop_subset offset l h1

/-- Every name produced by the star loop comes from a catalog record that
passed the filters, keyed by its lowercased truthy name. -/
lemma buildStarsLoop_mem (minMag : Option ℚ) (constel : Option String) :
    ∀ (cat : List (String × EqRecord)) (seen : List String) (nm : String),
    nm ∈ buildStarsLoop minMag constel cat seen →
    ∃ k e, (k, e) ∈ cat ∧ recordPasses minMag constel e = true ∧
      jsTruthy e.name = true ∧ nm = capitalize (jsToLower (e.name.getD "")) := by
  intro cat
  induction cat with
  | nil =>
    intro seen nm h
    simp [buildStarsLoop] at h
  | cons entry rest ih =>
    intro seen nm h
    obtain ⟨k, c⟩ := entry
    unfold buildStarsLoop at h
    by_cases h1 : recordPasses minMag constel c = true
    · rw [if_pos h1] at h
      by_cases h2 : jsTruthy c.name = true
      · rw [if_pos h2] at h
        dsimp only at h
        by_cases h3 : seen.contains (jsToLower (c.name.getD "")) = true
        · rw [if_pos h3] at h
          obtain ⟨k0, e0, hmem, hp, ht, he⟩ := ih _ nm h
          exact ⟨k0, e0, List.mem_cons_of_mem _ hmem, hp, ht, he⟩
        · rw [if_neg h3] at h
          rcases List.mem_cons.mp h with hnm | hnm
          · exact ⟨k, c, List.mem_cons_self _ _, h1, h2, hnm⟩
          · obtain ⟨k0, e0, hmem, hp, ht, he⟩ := ih _ nm hnm
            exact ⟨k0, e0, List.mem_cons_of_mem _ hmem, hp, ht, he⟩
      · rw [if_neg h2] at h
        obtain ⟨k0, e0, hmem, hp, ht, he⟩ := ih _ nm h
        exact ⟨k0, e0, List.mem_cons_of_mem _ hmem, hp, ht, he⟩
    · rw [if_neg h1] at h
      obtain ⟨k0, e0, hmem, hp, ht, he⟩ := ih _ nm h
      exact ⟨k0, e0, List.mem_cons_of_mem _ hmem, hp, ht, he⟩

/-- Every name produced by the DSO loop comes from a catalog entry whose
key matches the kind and whose record passed the filters. -/
lemma buildDsoLoop_mem (kind : DsoKind) (minMag : Option ℚ)
    (constel : Option String) :
    ∀ (cat : List (String × EqRecord)) (nm : String),
    nm ∈ buildDsoLoop kind minMag constel cat →
    ∃ k e, (k, e) ∈ cat ∧ recordPasses minMag constel e = true ∧
      keyMatches kind k = true ∧ nm = capitalize k := by
  intro cat
  induction cat with
  | nil =>
    intro nm h
    simp [buildDsoLoop] at h
  | cons entry rest ih =>
    intro nm h
    obtain ⟨k, c⟩ := entry
    unfold buildDsoLoop at h
    split_ifs at h with h1
    · rcases List.mem_cons.mp h with hnm | hnm
      · rcases Bool.and_eq_true_iff.mp h1 with ⟨hk, hp⟩
        exact ⟨k, c, List.mem_cons_self _ _, hp, hk, hnm⟩
      · obtain ⟨k0, e0, hmem, hp, hk, he⟩ := ih nm hnm
        exact ⟨k0, e0, List.mem_cons_of_mem _ hmem, hp, hk, he⟩
    · obtain ⟨k0, e0, hmem, hp, hk, he⟩ := ih nm h
      exact ⟨k0, e0, List.mem_cons_of_mem _ hmem, hp, hk, he⟩

/-- A record passing the filters under a supplied `minMagnitude` has a
defined magnitude within the bound. -/
lemma recordPasses_minMag (mm : ℚ) (constel : Option String) (e : EqRecord)
    (h : recordPasses (some mm) constel e = true) :
    ∃ m, e.magnitude = some m ∧ m ≤ mm := by
  unfold recordPasses at h
  rcases Bool.and_eq_true_iff.mp h with ⟨h1, -⟩
  cases hm : e.magnitude with
  | none => rw [hm] at h1; simp at h1
  | some m =>
    rw [hm] at h1
    simp at h1
    exact ⟨m, rfl, h1⟩

/-- C10: with a `minMagnitude` filter, every name in the returned star or
DSO listing comes from a catalog record with a defined numeric magnitude
`≤ minMagnitude`; records with an undefined magnitude never appear. -/
theorem listing_minMagnitude_filter (starCat dsoCat : List (String × EqRecord))
    (mm : ℚ) (constel : Option String) (limit : Option ℕ) (offset : ℕ) :
    (∀ nm ∈ buildStars starCat (some mm) constel limit offset,
      ∃ k e, (k, e) ∈ starCat ∧ (∃ m, e.magnitude = some m ∧ m ≤ mm) ∧
        jsTruthy e.name = true ∧ nm = capitalize (jsToLower (e.name.getD ""))) ∧
    (∀ kind : DsoKind, ∀ nm ∈ buildDsoByKind dsoCat kind (some mm) constel limit offset,
      ∃ k e, (k, e) ∈ dsoCat ∧ (∃ m, e.magnitude = some m ∧ m ≤ mm) ∧
        nm = capitalize k) := by
  constructor
  · intro nm h
    have h1 : nm ∈ sortStrings (buildStarsLoop (some mm) constel starCat []) :=
      mem_paginate limit offset _ nm h
    have h2 : nm ∈ buildStarsLoop (some mm) constel starCat [] :=
      (mem_sortStrings nm _).mp h1
    obtain ⟨k, e, hmem, hp, ht, he⟩ := buildStarsLoop_mem (some mm) constel
      starCat [] nm h2
    exact ⟨k, e, hmem, recordPasses_minMag mm constel e hp, ht, he⟩
  · intro kind nm h
    have h1 : nm ∈ sortBySuffix kind (buildDsoLoop kind (some mm) constel dsoCat) :=
      mem_paginate limit offset _ nm h
    have h2 : nm ∈ buildDsoLoop kind (some mm) constel dsoCat :=
      (mem_sortBySuffix kind nm _).mp h1
    obtain ⟨k, e, hmem, hp, -, he⟩ := buildDsoLoop_mem kind (some mm) constel
      dsoCat nm h2
    exact ⟨k, e, hmem, recordPasses_minMag mm constel e hp, he⟩

/-- Witness for C10: `"Vega"` appears in the star listing under threshold
3, and the theorem certifies its source record. -/
theorem listing_minMagnitude_filter_witness :
    ∃ k e, (k, e) ∈ catW ∧ ((∃ m, e.magnitude = some m ∧ m ≤ (3 : ℚ)) ∧
      jsTruthy e.name = true ∧ "Vega" = capitalize (jsToLower (e.name.getD ""))) :=
  have h := (listing_minMagnitude_filter catW [] 3 none none 0).1 "Vega"
    (by with_unfolding_all decide)
  ⟨h.choose, h.choose_spec.choose, h.choose_spec.choose_spec.1,
    h.choose_spec.choose_spec.2.1, h.choose_spec.choose_spec.2.2.1,
    h.choose_spec.choose_spec.2.2.2⟩

end Celestial
